import Mathlib

/-!
# Verification of the tfipam allocation engine

Shallow embedding of the core of `terraform-provider-tfipam`:
the address arithmetic and the greedy allocation search of
`internal/provider/allocation_resource.go`, the pool adapter of
`internal/provider/pool_resource.go`, and the persistent store of
`internal/provider/storage/aws_s3.go`, together with the parts of Go's
`net` package the repository relies on (`IPNet.Contains`, `IP.Mask`,
`CIDRMask`, `IPMask.Size`, `ParseCIDR` for IPv4, `IPNet.String`).

An IP address is a big-endian list of bytes (`List Nat`, each entry below
256 for well-formed inputs), as in Go's `net.IP`.  Go's 64-bit signed
integer arithmetic, on which the offset computation silently overflows,
is modelled by explicit wrapping on `Int`.
-/

namespace Tfipam

/-- A `net.IPNet`: an address together with a mask, both big-endian byte
lists. -/
structure IPNet where
  ip : List Nat
  mask : List Nat
deriving DecidableEq, Repr

/-- The 12-byte prefix `::ffff:` marking an IPv4-mapped IPv6 address
(Go's `v4InV6Prefix`). -/
def v4InV6 : List Nat := [0, 0, 0, 0, 0, 0, 0, 0, 0, 0, 255, 255]

/-- Go's `IP.To4`: a 4-byte address is returned unchanged; a 16-byte
IPv4-mapped address is reduced to its last four bytes; anything else
yields `none` (Go returns `nil`). -/
def to4 (ip : List Nat) : Option (List Nat) :=
  if ip.length = 4 then some ip
  else if ip.length = 16 ∧ ip.take 12 = v4InV6 then some (ip.drop 12)
  else none

/-- Go's `networkNumberAndMask`: normalizes an `IPNet` to a matching
network-number/mask pair, converting IPv4-mapped addresses to 4 bytes and
truncating a 16-byte mask accordingly; `none` models Go's `nil, nil`. -/
def networkNumberAndMask (n : IPNet) : Option (List Nat × List Nat) :=
  match to4 n.ip with
  | some ip4 =>
    if n.mask.length = 4 then some (ip4, n.mask)
    else if n.mask.length = 16 then some (ip4, n.mask.drop 12)
    else none
  | none =>
    if n.ip.length = 16 then
      if n.mask.length = 4 then none
      else if n.mask.length = 16 then some (n.ip, n.mask)
      else none
    else none

/-- Go's `IPNet.Contains`: the argument is normalized with `To4`, must
have the same length as the network number, and must agree with it under
the mask byte by byte. -/
def contains (n : IPNet) (x : List Nat) : Bool :=
  match networkNumberAndMask n with
  | none => false
  | some (nn, m) =>
    let ip := match to4 x with
      | some x4 => x4
      | none => x
    ip.length == nn.length &&
      List.zipWith Nat.land nn m == List.zipWith Nat.land ip m

/-- Go's `IP.Mask`: after the two length normalizations (16-byte mask on a
4-byte address with an all-ones head, 4-byte mask on an IPv4-mapped
address), bytewise AND of address and mask; a length mismatch yields the
empty list (Go's `nil`). -/
def ipMask (ip : List Nat) (mask : List Nat) : List Nat :=
  let mask' := if mask.length = 16 ∧ ip.length = 4 ∧ mask.take 12 = List.replicate 12 255
    then mask.drop 12 else mask
  let ip' := if mask'.length = 4 ∧ ip.length = 16 ∧ ip.take 12 = v4InV6
    then ip.drop 12 else ip
  if ip'.length = mask'.length then List.zipWith Nat.land ip' mask' else []

/-- `getLastIPInCIDR` from `allocation_resource.go`: OR each address byte
with the complement of the corresponding mask byte.  (Go indexes the mask
by the address's indices; in every reachable call the two lengths agree,
which `zipWith` reflects.) -/
def getLastIPInCIDR (c : IPNet) : List Nat :=
  List.zipWith (fun b m => Nat.lor b (255 - m)) c.ip c.mask

/-- `cidrsOverlap` from `allocation_resource.go`: the candidate overlaps
the list if for some allocated block either network address or either
last address is contained in the other block. -/
def cidrsOverlap (candidate : IPNet) (allocated : List IPNet) : Bool :=
  allocated.any (fun a =>
    contains candidate a.ip || contains a candidate.ip ||
    contains candidate (getLastIPInCIDR a) || contains a (getLastIPInCIDR candidate))

/-- The byte list of a prefix mask of `ones` leading one bits over `len`
bytes: the byte loop inside Go's `CIDRMask`. -/
def prefixMaskBytes : Nat → Nat → List Nat
  | _, 0 => []
  | ones, len + 1 =>
    if 8 ≤ ones then 255 :: prefixMaskBytes (ones - 8) len
    else (256 - 2 ^ (8 - ones)) :: prefixMaskBytes 0 len

/-- Go's `CIDRMask(ones, bits)`: only 32 or 128 total bits and
`0 ≤ ones ≤ bits` are accepted; otherwise the result is `nil`, modelled
as the empty list. -/
def cidrMask (ones : Int) (bits : Int) : List Nat :=
  if (bits = 32 ∨ bits = 128) ∧ 0 ≤ ones ∧ ones ≤ bits then
    prefixMaskBytes ones.toNat (bits / 8).toNat
  else []

/-- The leading-ones count of one mask byte (the inner loop of Go's
`simpleMaskLength`): counts leading one bits and fails unless the
remaining bits are all zero. -/
def byteLeadingOnes : Nat → Nat → Option Nat
  | _, 0 => some 0
  | v, fuel + 1 =>
    if v % 256 / 128 = 1 then
      (byteLeadingOnes (v * 2 % 256) fuel).map (· + 1)
    else if v % 256 = 0 then some 0
    else none

/-- Go's `simpleMaskLength`: total count of leading one bits of a mask,
`none` (Go's `-1`) if the mask is not of prefix form. -/
def simpleMaskLength : List Nat → Option Nat
  | [] => some 0
  | b :: rest =>
    if b = 255 then (simpleMaskLength rest).map (· + 8)
    else
      match byteLeadingOnes b 8 with
      | none => none
      | some k => if rest.all (· == 0) then some k else none

/-- Go's `IPMask.Size`: the pair `(ones, bits)`, or `(0, 0)` when the
mask is not canonical. -/
def maskSize (m : List Nat) : Int × Int :=
  match simpleMaskLength m with
  | some n => ((n : Int), (8 * m.length : Nat))
  | none => (0, 0)

/-- Two's-complement wrap of an integer into the signed 64-bit range,
modelling Go's `int` arithmetic. -/
def wrap64 (x : Int) : Int :=
  (x + 9223372036854775808) % 18446744073709551616 - 9223372036854775808

/-- Go's `1 << uint(h)` on a 64-bit `int`: a negative `h` becomes an
enormous unsigned shift count and, like any count of 64 or more, shifts
every bit out. -/
def goShl1 (h : Int) : Int :=
  if h < 0 then 0 else wrap64 ((2 : Int) ^ h.toNat)

/-- The IPv6 carry loop of `addIPOffset`, acting on the reversed byte
list: while the running offset is positive, add the current byte, store
the low 8 bits and shift the offset right arithmetically (Go's `>>= 8` on
a signed 64-bit value). -/
def addOffsetRev : List Nat → Int → List Nat
  | [], _ => []
  | b :: rest, off =>
    if 0 < off then
      let off2 := wrap64 (off + b)
      ((off2.emod 256).toNat) :: addOffsetRev rest (Int.fdiv off2 256)
    else b :: rest

/-- The big-endian `uint32` value of a 4-byte address
(`uint32(ip[0])<<24 | ... | uint32(ip[3])`; for byte-range entries the OR
of the disjoint shifted bytes is their sum). -/
def b4toNat (ip : List Nat) : Nat :=
  match ip with
  | [b0, b1, b2, b3] => b0 * 16777216 + b1 * 65536 + b2 * 256 + b3
  | _ => 0

/-- The 4-byte big-endian form of a `uint32` value. -/
def natToB4 (n : Nat) : List Nat :=
  [n / 16777216 % 256, n / 65536 % 256, n / 256 % 256, n % 256]

/-- `addIPOffset` from `allocation_resource.go`.  `hostBits`, `blockSize`
and `offset` live in Go's 64-bit signed `int`: the shift `1 << hostBits`
is zero as soon as `hostBits ≥ 64`, and the product wraps.  A 4-byte
address is updated through `uint32` arithmetic; any other length goes
through the right-to-left carry loop. -/
def addIPOffset (ip : List Nat) (blockIndex : Int) (prefixLength : Int) (totalBits : Int) : List Nat :=
  let hostBits := totalBits - prefixLength
  let blockSize := goShl1 hostBits
  let offset := wrap64 (blockIndex * blockSize)
  if ip.length = 4 then
    natToB4 ((b4toNat ip + (offset.emod 4294967296).toNat) % 4294967296)
  else
    (addOffsetRev ip.reverse offset).reverse

/-- One candidate block of the search loop in `findAvailableCIDR`: the
base address advanced by `i` blocks and masked to the requested length. -/
def mkCandidate (base : List Nat) (i : Nat) (prefixLength : Int) (reqMask : List Nat) (bits : Int) : IPNet :=
  ⟨ipMask (addIPOffset base (i : Int) prefixLength bits) reqMask, reqMask⟩

/-- The `for i := 0; i < numBlocks; i++` loop of `findAvailableCIDR`:
skip a candidate whose first or last address falls outside the pool range
or which overlaps an existing allocation; return the first survivor. -/
def findFrom (poolNet : IPNet) (prefixLength : Int) (allocd : List IPNet)
    (reqMask : List Nat) (bits : Int) : Nat → Nat → Option IPNet
  | _, 0 => none
  | i, fuel + 1 =>
    let cand := mkCandidate poolNet.ip i prefixLength reqMask bits
    if contains poolNet cand.ip = false then
      findFrom poolNet prefixLength allocd reqMask bits (i + 1) fuel
    else if contains poolNet (getLastIPInCIDR cand) = false then
      findFrom poolNet prefixLength allocd reqMask bits (i + 1) fuel
    else if cidrsOverlap cand allocd = true then
      findFrom poolNet prefixLength allocd reqMask bits (i + 1) fuel
    else some cand

/-- `findAvailableCIDR` from `allocation_resource.go`: reject a request
smaller than the pool's own prefix, compute `numBlocks = 1 << diff` in
64-bit arithmetic, and scan the blocks in increasing index order. -/
def findAvailableCIDR (poolNet : IPNet) (prefixLength : Int) (allocd : List IPNet) : Option IPNet :=
  let sz := maskSize poolNet.mask
  let d := prefixLength - sz.1
  if d < 0 then none
  else
    let numBlocks := goShl1 d
    let reqMask := cidrMask prefixLength sz.2
    findFrom poolNet prefixLength allocd reqMask sz.2 0 numBlocks.toNat

/-! ## Textual CIDRs: `net.ParseCIDR` (IPv4) and `IPNet.String` -/

/-- Split a character list at every occurrence of `c`. -/
def splitOnChar (c : Char) : List Char → List (List Char)
  | [] => [[]]
  | x :: rest =>
    let r := splitOnChar c rest
    if x = c then [] :: r
    else match r with
      | [] => [[x]]
      | h :: t => (x :: h) :: t

/-- Split a character list at the first occurrence of `c`, or `none` when
`c` does not occur. -/
def splitFirst (c : Char) : List Char → Option (List Char × List Char)
  | [] => none
  | x :: rest =>
    if x = c then some ([], rest)
    else (splitFirst c rest).map (fun p => (x :: p.1, p.2))

/-- The numeric value of a decimal digit string. -/
def decValue (cs : List Char) : Nat :=
  cs.foldl (fun a c => a * 10 + (c.toNat - 48)) 0

/-- One dotted-quad field: 1 to 3 decimal digits, no leading zero, value
at most 255 (the rules of Go's `netip.ParseAddr` for IPv4 fields). -/
def parseV4Field (cs : List Char) : Option Nat :=
  if cs ≠ [] ∧ cs.length ≤ 3 ∧ cs.all Char.isDigit ∧ (1 < cs.length → cs.head? ≠ some '0')
  then if decValue cs ≤ 255 then some (decValue cs) else none
  else none

/-- Go's textual IPv4 address parser: exactly four dotted fields. -/
def parseIPv4 (cs : List Char) : Option (List Nat) :=
  match splitOnChar '.' cs with
  | [a, b, c, d] =>
    match parseV4Field a, parseV4Field b, parseV4Field c, parseV4Field d with
    | some x, some y, some z, some w => some [x, y, z, w]
    | _, _, _, _ => none
  | _ => none

/-- The decimal prefix length after the slash: nonempty digits with value
at most `bound` (32 or 128; Go's `dtoi` followed by the
`0 ≤ n ≤ 8*iplen` check; the overflow cut-off of `dtoi` rejects the same
strings as the bound). -/
def parsePrefixLen (cs : List Char) (bound : Nat) : Option Nat :=
  if cs ≠ [] ∧ cs.all Char.isDigit then
    if decValue cs ≤ bound then some (decValue cs) else none
  else none

/-- The value of one hexadecimal digit. -/
def hexDigitVal (c : Char) : Option Nat :=
  if '0' ≤ c ∧ c ≤ '9' then some (c.toNat - 48)
  else if 'a' ≤ c ∧ c ≤ 'f' then some (c.toNat - 87)
  else if 'A' ≤ c ∧ c ≤ 'F' then some (c.toNat - 55)
  else none

/-- One 16-bit group of an IPv6 literal: one to four hex digits (a fifth
hex digit is an error, as in Go's parser), stopping at the first
non-hex character.  Returns the group value and the rest. -/
def hexGroupAux (cs : List Char) (acc : Nat) (seen : Nat) : Option (Nat × List Char) :=
  match cs with
  | [] => if seen = 0 then none else some (acc, [])
  | c :: rest =>
    match hexDigitVal c with
    | some d => if 4 ≤ seen then none else hexGroupAux rest (acc * 16 + d) (seen + 1)
    | none => if seen = 0 then none else some (acc, c :: rest)

/-- Expansion step of Go's IPv6 parser: with fewer than 16 bytes an
ellipsis must be present and is filled with zero bytes at its position;
with all 16 bytes present an ellipsis is an error (it must stand for at
least one zero group). -/
def expandEllipsis (bytes : List Nat) (ell : Option Nat) : Option (List Nat) :=
  if bytes.length < 16 then
    match ell with
    | none => none
    | some e => some (bytes.take e ++ List.replicate (16 - bytes.length) 0 ++ bytes.drop e)
  else
    match ell with
    | none => some bytes
    | some _ => none

/-- The group loop of Go's IPv6 parser.  `fuel` counts the groups still
allowed (the loop runs while fewer than 16 bytes are placed), `ell` is
the byte position of the ellipsis when one was seen, `acc` the bytes
placed so far.  A group followed by a dot starts an embedded trailing
IPv4 address, legal only in the last four bytes or after an ellipsis. -/
def parseIPv6Groups : Nat → List Char → Option Nat → List Nat → Option (List Nat)
  | 0, cs, ell, acc =>
    if cs = [] then expandEllipsis acc ell else none
  | fuel + 1, cs, ell, acc =>
    match hexGroupAux cs 0 0 with
    | none => none
    | some (g, rest) =>
      match rest with
      | '.' :: _ =>
        if ell = none ∧ acc.length ≠ 12 then none
        else if 16 < acc.length + 4 then none
        else
          match parseIPv4 cs with
          | none => none
          | some ip4 => expandEllipsis (acc ++ ip4) ell
      | [] => expandEllipsis (acc ++ [g / 256, g % 256]) ell
      | ':' :: [] => none
      | ':' :: ':' :: rest3 =>
        if ell ≠ none then none
        else if rest3 = [] then
          expandEllipsis (acc ++ [g / 256, g % 256]) (some (acc.length + 2))
        else
          parseIPv6Groups fuel rest3 (some (acc.length + 2)) (acc ++ [g / 256, g % 256])
      | ':' :: rest2 => parseIPv6Groups fuel rest2 ell (acc ++ [g / 256, g % 256])
      | _ => none

/-- Go's textual IPv6 address parser (RFC 4291 form as accepted by
`net.ParseCIDR`): hex groups separated by colons, at most one `::`,
optional embedded trailing IPv4; zones (`%`) are rejected, as
`ParseCIDR` rejects them. -/
def parseIPv6 (cs : List Char) : Option (List Nat) :=
  match cs with
  | ':' :: ':' :: rest =>
    if rest = [] then some (List.replicate 16 0)
    else parseIPv6Groups 8 rest (some 0) []
  | _ => parseIPv6Groups 8 cs none []

/-- Go's `net.ParseCIDR`, restricted to the network value (the only
component the repository uses).  The address before the slash is parsed
as IPv4 first and as IPv6 otherwise, fixing the total width (32 or 128)
against which the decimal prefix length is checked; the network is the
address masked by `CIDRMask`. -/
def parseCIDR (s : String) : Option IPNet :=
  match splitFirst '/' s.data with
  | none => none
  | some (addr, maskpart) =>
    match parseIPv4 addr with
    | some ip4 =>
      match parsePrefixLen maskpart 32 with
      | some n =>
        let m := cidrMask (n : Int) 32
        some ⟨ipMask ip4 m, m⟩
      | none => none
    | none =>
      match parseIPv6 addr with
      | some ip16 =>
        match parsePrefixLen maskpart 128 with
        | some n =>
          let m := cidrMask (n : Int) 128
          some ⟨ipMask ip16 m, m⟩
        | none => none
      | none => none

/-- The character of a decimal digit. -/
def digitChar (d : Nat) : Char := Char.ofNat (48 + d)

/-- Decimal text of a number below 1000 (enough for bytes and prefix
lengths), as Go's `uitoa` renders them. -/
def decString (b : Nat) : String :=
  if b < 10 then String.mk [digitChar b]
  else if b < 100 then String.mk [digitChar (b / 10), digitChar (b % 10)]
  else String.mk [digitChar (b / 100), digitChar (b / 10 % 10), digitChar (b % 10)]

/-- The character of a hexadecimal digit (lowercase). -/
def hexDigitChar (d : Nat) : Char :=
  if d < 10 then Char.ofNat (48 + d) else Char.ofNat (87 + d)

/-- Lowercase hex text of one 16-bit group without leading zeros (Go's
`appendHex`). -/
def hexGroup (g : Nat) : String :=
  if g < 16 then String.mk [hexDigitChar g]
  else if g < 256 then String.mk [hexDigitChar (g / 16), hexDigitChar (g % 16)]
  else if g < 4096 then String.mk [hexDigitChar (g / 256), hexDigitChar (g / 16 % 16), hexDigitChar (g % 16)]
  else String.mk [hexDigitChar (g / 4096), hexDigitChar (g / 256 % 16), hexDigitChar (g / 16 % 16), hexDigitChar (g % 16)]

/-- Two lowercase hex digits of one byte (Go's `hexString` digit pairs). -/
def hexByte (b : Nat) : String :=
  String.mk [hexDigitChar (b / 16 % 16), hexDigitChar (b % 16)]

/-- Hex text of a byte string, used by Go for masks and unknown-length
addresses. -/
def hexBytes (l : List Nat) : String :=
  String.join (l.map hexByte)

/-- The 16-bit groups of a 16-byte address. -/
def groups16 : List Nat → List Nat
  | b0 :: b1 :: rest => (b0 * 256 + b1) :: groups16 rest
  | _ => []

/-- Length of the zero-group run starting at the head. -/
def zeroRunLen : List Nat → Nat
  | 0 :: rest => 1 + zeroRunLen rest
  | _ => 0

/-- The earliest longest run of at least two zero groups, as start index
and length (the `e0`/`e1` scan of Go's IPv6 `IP.String`, which keeps the
earliest run on ties). -/
def bestZeroRun : List Nat → Nat → Option (Nat × Nat)
  | [], _ => none
  | g :: rest, idx =>
    let here := zeroRunLen (g :: rest)
    let there := bestZeroRun rest (idx + 1)
    if 2 ≤ here then
      match there with
      | some (s, l) => if l > here then some (s, l) else some (idx, here)
      | none => some (idx, here)
    else there

/-- Join hex groups with colons. -/
def joinGroups (gs : List Nat) : String :=
  String.intercalate ":" (gs.map hexGroup)

/-- RFC 5952 text of a 16-byte address: groups in hex, the earliest
longest zero run of length at least two compressed to `::`. -/
def v6String (ip : List Nat) : String :=
  let gs := groups16 ip
  match bestZeroRun gs 0 with
  | none => joinGroups gs
  | some (s, l) => joinGroups (gs.take s) ++ "::" ++ joinGroups (gs.drop (s + l))

/-- Go's `IP.String`: empty is `<nil>`, IPv4 (also mapped) is dotted
decimal, 16 bytes is RFC 5952 text, anything else is `?` plus hex. -/
def ipString (ip : List Nat) : String :=
  if ip.length = 0 then "<nil>"
  else match to4 ip with
  | some [a, b, c, d] =>
    decString a ++ "." ++ decString b ++ "." ++ decString c ++ "." ++ decString d
  | _ => if ip.length = 16 then v6String ip else "?" ++ hexBytes ip

/-- Go's `IPNet.String`: address text, slash, decimal mask length (hex
mask when the mask is not canonical). -/
def netString (n : IPNet) : String :=
  match networkNumberAndMask n with
  | none => "<nil>"
  | some (nn, m) =>
    match simpleMaskLength m with
    | none => ipString nn ++ "/" ++ hexBytes m
    | some l => ipString nn ++ "/" ++ decString l

/-! ## The provider's runtime data model and the allocation engine -/

/-- `provider.Pool` (also the shape of `storage.Pool`): a name and an
ordered CIDR list. -/
structure Pool where
  name : String
  cidrs : List String
deriving DecidableEq, Repr

/-- `provider.Allocation`: the runtime record registered per allocation. -/
structure Allocation where
  id : String
  poolName : String
  allocatedIP : String
  prefixLength : Int
deriving DecidableEq, Repr

/-- Reading a Go map: the value stored under a key.  Maps are modelled as
association lists whose enumeration order is arbitrary. -/
def lookupPair {α : Type} (m : List (String × α)) (k : String) : Option α :=
  (m.find? (fun p => p.1 == k)).map (·.2)

/-- Writing a Go map: replace any entry under the key. -/
def insertPair {α : Type} (m : List (String × α)) (k : String) (v : α) : List (String × α) :=
  (k, v) :: m.filter (fun p => p.1 != k)

/-- Deleting from a Go map. -/
def removeKey {α : Type} (m : List (String × α)) (k : String) : List (String × α) :=
  m.filter (fun p => p.1 != k)

/-- The allocation registered under its id (Go map write in
`allocateCIDRFromPool`; existing entries under the id are replaced). -/
def insertAlloc (m : List Allocation) (a : Allocation) : List Allocation :=
  a :: m.filter (fun x => x.id != a.id)

/-- The allocation stored under an id. -/
def lookupAlloc (m : List Allocation) (id : String) : Option Allocation :=
  m.find? (fun x => x.id == id)

/-- The first loop of `allocateCIDRFromPool`: the parsed networks of the
pool's allocations, silently skipping entries whose stored CIDR fails to
parse (`err != nil { continue }`). -/
def collectAllocated (allocs : List Allocation) (poolName : String) : List IPNet :=
  allocs.filterMap (fun al =>
    if al.poolName == poolName then parseCIDR al.allocatedIP else none)

/-- The second loop of `allocateCIDRFromPool`: ranges in list order,
skipping unparsable ranges and ranges smaller than the request, returning
the first range's available block. -/
def allocLoop (cidrs : List String) (prefixLength : Int) (allocd : List IPNet) : Option IPNet :=
  match cidrs with
  | [] => none
  | c :: rest =>
    match parseCIDR c with
    | none => allocLoop rest prefixLength allocd
    | some poolNet =>
      if prefixLength < (maskSize poolNet.mask).1 then allocLoop rest prefixLength allocd
      else
        match findAvailableCIDR poolNet prefixLength allocd with
        | some cand => some cand
        | none => allocLoop rest prefixLength allocd

/-- The errors of `allocateCIDRFromPool` (the provider-nil case is out of
scope of the data model). -/
inductive AllocErr where
  | poolNotFound
  | exhausted
deriving DecidableEq, Repr

/-- `allocateCIDRFromPool` from `allocation_resource.go`: look up the
pool, collect its parsed allocations, search the ranges in order, and on
success register the new allocation under `poolName + "-" + allocatedIP`,
returning the allocated CIDR text, the id, and the updated allocation
map. -/
def allocateCIDRFromPool (pools : List (String × Pool)) (allocs : List Allocation)
    (poolName : String) (prefixLength : Int) :
    Except AllocErr (String × String × List Allocation) :=
  match lookupPair pools poolName with
  | none => .error .poolNotFound
  | some pool =>
    let allocd := collectAllocated allocs poolName
    match allocLoop pool.cidrs prefixLength allocd with
    | some cand =>
      let allocatedIP := netString cand
      let allocationID := poolName ++ "-" ++ allocatedIP
      .ok (allocatedIP, allocationID,
        insertAlloc allocs ⟨allocationID, poolName, allocatedIP, prefixLength⟩)
    | none => .error .exhausted

/-! ## The resource adapters (Create/Update/Delete validation paths) -/

/-- The errors surfaced by `AllocationResource.Create`. -/
inductive CreateErr where
  | invalidPrefixLength
  | allocationFailed (e : AllocErr)
deriving DecidableEq, Repr

/-- `AllocationResource.Create`: prefix lengths outside `[0, 128]` are
rejected before any allocation is attempted; allocation errors are
surfaced. -/
def allocationCreate (pools : List (String × Pool)) (allocs : List Allocation)
    (poolName : String) (prefixLength : Int) :
    Except CreateErr (String × String × List Allocation) :=
  if prefixLength < 0 ∨ 128 < prefixLength then .error .invalidPrefixLength
  else
    match allocateCIDRFromPool pools allocs poolName prefixLength with
    | .ok r => .ok r
    | .error e => .error (.allocationFailed e)

/-- The validation error of `PoolResource.Create`/`Update`. -/
inductive PoolErr where
  | invalidCIDR (c : String)
deriving DecidableEq, Repr

/-- `PoolResource.Create`: the first syntactically invalid CIDR aborts
with an error and no state change; otherwise the pool is registered under
its name. -/
def poolCreate (pools : List (String × Pool)) (name : String) (cidrs : List String) :
    Except PoolErr (List (String × Pool)) :=
  match cidrs.find? (fun c => (parseCIDR c).isNone) with
  | some c => .error (.invalidCIDR c)
  | none => .ok (insertPair pools name ⟨name, cidrs⟩)

/-- `PoolResource.Update`: same validation and registration as create. -/
def poolUpdate (pools : List (String × Pool)) (name : String) (cidrs : List String) :
    Except PoolErr (List (String × Pool)) :=
  match cidrs.find? (fun c => (parseCIDR c).isNone) with
  | some c => .error (.invalidCIDR c)
  | none => .ok (insertPair pools name ⟨name, cidrs⟩)

/-- The rejection of `PoolResource.Delete`. -/
inductive PoolDeleteErr where
  | hasAllocations
deriving DecidableEq, Repr

/-- `PoolResource.Delete`: a pool referenced by any registered allocation
is not deleted; otherwise it is removed from the provider's map. -/
def poolResourceDelete (pools : List (String × Pool)) (allocs : List Allocation)
    (name : String) : Except PoolDeleteErr (List (String × Pool)) :=
  if allocs.any (fun a => a.poolName == name) then .error .hasAllocations
  else .ok (removeKey pools name)

/-- The pools map after an attempted adapter delete (unchanged when the
delete was rejected). -/
def poolsAfterDelete (pools : List (String × Pool)) (allocs : List Allocation)
    (name : String) : List (String × Pool) :=
  match poolResourceDelete pools allocs name with
  | .ok ps => ps
  | .error _ => pools

/-! ## The persistent store (`storage/aws_s3.go` in-memory semantics)

The remote PUT of `save(ctx)` moves the serialized dataset unchanged; the
claims concern the dataset semantics, so the transport is modelled as
succeeding. -/

/-- `storage.Allocation`. -/
structure StorageAllocation where
  id : String
  poolName : String
  allocatedCIDR : String
  prefixLength : Int
deriving DecidableEq, Repr

/-- `s3Data`: the dataset of pools and allocations. -/
structure S3Data where
  pools : List (String × Pool)
  allocations : List (String × StorageAllocation)
deriving DecidableEq, Repr

/-- `storage.ErrNotFound`. -/
inductive StoreErr where
  | notFound
deriving DecidableEq, Repr

namespace S3

/-- `S3Storage.GetPool`: a copy of the stored pool, or not found. -/
def GetPool (st : S3Data) (name : String) : Except StoreErr Pool :=
  match lookupPair st.pools name with
  | some p => .ok p
  | none => .error .notFound

/-- `S3Storage.SavePool`: upsert a copy under the pool's name. -/
def SavePool (st : S3Data) (p : Pool) : S3Data :=
  { st with pools := insertPair st.pools p.name p }

/-- `S3Storage.DeletePool`: not found when absent, otherwise remove. -/
def DeletePool (st : S3Data) (name : String) : Except StoreErr S3Data :=
  match lookupPair st.pools name with
  | none => .error .notFound
  | some _ => .ok { st with pools := removeKey st.pools name }

/-- `S3Storage.GetAllocation`. -/
def GetAllocation (st : S3Data) (id : String) : Except StoreErr StorageAllocation :=
  match lookupPair st.allocations id with
  | some a => .ok a
  | none => .error .notFound

/-- `S3Storage.SaveAllocation`: upsert a copy under the allocation's id. -/
def SaveAllocation (st : S3Data) (a : StorageAllocation) : S3Data :=
  { st with allocations := insertPair st.allocations a.id a }

/-- `S3Storage.DeleteAllocation`: not found when absent, otherwise
remove. -/
def DeleteAllocation (st : S3Data) (id : String) : Except StoreErr S3Data :=
  match lookupPair st.allocations id with
  | none => .error .notFound
  | some _ => .ok { st with allocations := removeKey st.allocations id }

/-- The dataset after an attempted pool delete (unchanged when the delete
reported not found). -/
def afterDeletePool (st : S3Data) (name : String) : S3Data :=
  match DeletePool st name with
  | .ok st2 => st2
  | .error _ => st

/-- The dataset after an attempted allocation delete. -/
def afterDeleteAllocation (st : S3Data) (id : String) : S3Data :=
  match DeleteAllocation st id with
  | .ok st2 => st2
  | .error _ => st

end S3

/-! ## Specification-side vocabulary -/

/-- The unsigned big-endian integer value of a byte list. -/
def ipToNat : List Nat → Nat
  | [] => 0
  | b :: rest => b * 256 ^ rest.length + ipToNat rest

/-- Every entry is a byte value. -/
def ValidBytes (l : List Nat) : Prop := ∀ b ∈ l, b < 256

/-- An address: a 4- or 16-byte string of byte values. -/
def ValidIP (l : List Nat) : Prop := (l.length = 4 ∨ l.length = 16) ∧ ValidBytes l

/-- Two networks share an address when some address is contained in
both (containment in the sense of Go's `IPNet.Contains`, the notion the
repository's overlap test is built from). -/
def SharesAddress (a b : IPNet) : Prop :=
  ∃ x, ValidIP x ∧ contains a x = true ∧ contains b x = true

/-- A prefix-aligned power-of-two range: the mask is the prefix mask of
`L` bits over the address length, and the address is aligned to it. -/
def WfBlock (c : IPNet) (L : Nat) : Prop :=
  L ≤ 8 * c.ip.length ∧ c.mask = prefixMaskBytes L c.ip.length ∧
    List.zipWith Nat.land c.ip c.mask = c.ip ∧ ValidBytes c.ip

/-- What one pool range contributes to the allocation search: `none` for
an unparsable range, for a range smaller than the request, and for an
exhausted range. -/
def rangeYield (c : String) (prefixLength : Int) (allocd : List IPNet) : Option IPNet :=
  match parseCIDR c with
  | none => none
  | some pnet =>
    if prefixLength < (maskSize pnet.mask).1 then none
    else findAvailableCIDR pnet prefixLength allocd

/-- The observable outcome of an allocation: the allocated CIDR and id,
or the error — without the updated map, whose enumeration order is
irrelevant. -/
def resultView : Except AllocErr (String × String × List Allocation) → Except AllocErr (String × String)
  | .ok r => .ok (r.1, r.2.1)
  | .error e => .error e

/-- Concrete IPv6 base address `2001:db8::` for evaluating the offset
routine. -/
def v6base : List Nat := [32, 1, 13, 184, 0, 0, 0, 0, 0, 0, 0, 0, 0, 0, 0, 0]

/-- The IPv4 single-host block `255.255.255.255/32`. -/
def blk4AllOnes : IPNet := ⟨[255, 255, 255, 255], [255, 255, 255, 255]⟩

/-- The IPv6 block `::/80`, whose last address `::ffff:255.255.255.255`
is IPv4-mapped. -/
def blk6Slash80 : IPNet := ⟨List.replicate 16 0, prefixMaskBytes 80 16⟩

/-- The IPv4 block `10.0.0.0/27`. -/
def blk4Sub : IPNet := ⟨[10, 0, 0, 0], [255, 255, 255, 224]⟩

/-- The IPv4 block `10.0.0.0/16`. -/
def blk4Pool : IPNet := ⟨[10, 0, 0, 0], [255, 255, 0, 0]⟩

/-! ## Map lemmas -/

theorem lookupPair_insert {α : Type} (m : List (String × α)) (k : String) (v : α) :
    lookupPair (insertPair m k v) k = some v := by
  simp [lookupPair, insertPair, List.find?]

theorem lookupPair_remove {α : Type} (m : List (String × α)) (k : String) :
    lookupPair (removeKey m k) k = none := by
  simp only [lookupPair, removeKey, Option.map_eq_none']
  rw [List.find?_eq_none]
  intro x hx
  have := List.of_mem_filter hx
  simpa using this

theorem lookupAlloc_insert (m : List Allocation) (a : Allocation) :
    lookupAlloc (insertAlloc m a) a.id = some a := by
  simp [lookupAlloc, insertAlloc, List.find?]

/-- C6: for every store state, saving a pool or an allocation and reading
it back under its key returns the saved value, and after an attempted
delete the key reads back as not found. -/
theorem c6_store_roundtrip (st : S3Data) (p : Pool) (a : StorageAllocation) (n id : String) :
    S3.GetPool (S3.SavePool st p) p.name = .ok p ∧
    S3.GetAllocation (S3.SaveAllocation st a) a.id = .ok a ∧
    S3.GetPool (S3.afterDeletePool st n) n = .error .notFound ∧
    S3.GetAllocation (S3.afterDeleteAllocation st id) id = .error .notFound := by
  refine ⟨?_, ?_, ?_, ?_⟩
  · simp [S3.GetPool, S3.SavePool, lookupPair_insert]
  · simp [S3.GetAllocation, S3.SaveAllocation, lookupPair_insert]
  · unfold S3.afterDeletePool S3.DeletePool
    cases h : lookupPair st.pools n with
    | none => simp [S3.GetPool, h]
    | some q => simp [S3.GetPool, lookupPair_remove]
  · unfold S3.afterDeleteAllocation S3.DeleteAllocation
    cases h : lookupPair st.allocations id with
    | none => simp [S3.GetAllocation, h]
    | some q => simp [S3.GetAllocation, lookupPair_remove]

/-- C9: with at least one allocation referencing pool `n`, the adapter
delete is rejected and the pool stays in the map, while the store's own
delete succeeds for any present pool regardless of its allocations, and
reports not found exactly for absent names. -/
theorem c9_pool_delete_policy (ps : List (String × Pool)) (as : List Allocation)
    (n : String) (st : S3Data) (p q : Pool)
    (h1 : as.any (fun a => a.poolName == n) = true)
    (h2 : lookupPair ps n = some p)
    (h3 : lookupPair st.pools n = some q) :
    poolResourceDelete ps as n = .error .hasAllocations ∧
    lookupPair (poolsAfterDelete ps as n) n = some p ∧
    (∃ st2, S3.DeletePool st n = .ok st2 ∧ lookupPair st2.pools n = none) ∧
    (∀ m, lookupPair st.pools m = none → S3.DeletePool st m = .error .notFound) := by
  refine ⟨?_, ?_, ?_, ?_⟩
  · simp [poolResourceDelete, h1]
  · simp [poolsAfterDelete, poolResourceDelete, h1, h2]
  · refine ⟨{ st with pools := removeKey st.pools n }, ?_, ?_⟩
    · simp [S3.DeletePool, h3]
    · simp [lookupPair_remove]
  · intro m hm
    simp [S3.DeletePool, hm]

/-- C10: a successful allocation returns the id `poolName + "-" + CIDR`
and registers, under exactly that id, an allocation whose fields are the
id, the pool name, the allocated CIDR and the requested prefix length. -/
theorem c10_allocation_registration (ps : List (String × Pool)) (as : List Allocation)
    (n : String) (L : Int) (ip id : String) (as2 : List Allocation)
    (h : allocateCIDRFromPool ps as n L = .ok (ip, id, as2)) :
    id = n ++ "-" ++ ip ∧ lookupAlloc as2 id = some ⟨id, n, ip, L⟩ := by
  unfold allocateCIDRFromPool at h
  split at h
  · exact absurd h (by simp)
  · dsimp only at h
    split at h
    · simp only [Except.ok.injEq, Prod.mk.injEq] at h
      obtain ⟨hip, hid, has⟩ := h
      subst hip hid
      refine ⟨rfl, ?_⟩
      rw [← has]
      exact lookupAlloc_insert as _
    · exact absurd h (by simp)

/-- A witness instantiating C10's hypothesis: the first allocation of
scenario B registers `pool-10.0.0.0/27` under that id. -/
theorem c10_witness :
    "pool-10.0.0.0/27" = "pool" ++ "-" ++ "10.0.0.0/27" ∧
    lookupAlloc [⟨"pool-10.0.0.0/27", "pool", "10.0.0.0/27", 27⟩] "pool-10.0.0.0/27" =
      some ⟨"pool-10.0.0.0/27", "pool", "10.0.0.0/27", 27⟩ :=
  c10_allocation_registration [("pool", ⟨"pool", ["10.0.0.0/16"]⟩)] [] "pool" 27
    "10.0.0.0/27" "pool-10.0.0.0/27" [⟨"pool-10.0.0.0/27", "pool", "10.0.0.0/27", 27⟩]
    (by rfl)

/-- C2: the offset routine does NOT compute
`base + blockIndex * 2^(totalBits-requestedPrefixLen)` for all in-bounds
block indices.  At base `2001:db8::`, block index 1, requested prefix 64
and width 128 bits (index bound `2^(64-32)` for a /32 pool), the intended
result is `2001:db8:0:1::`, but `1 << 64` is 0 in Go's 64-bit `int`, so
the computed offset is 0 and the base is returned unchanged.  For the
extreme delta the claim highlights — a /128 out of a /0 — the block count
`1 << 128` also evaluates to 0, so the search inspects no candidate at
all and reports exhaustion on an empty pool. -/
theorem c2_addIPOffset_bug :
    addIPOffset v6base 1 64 128 = v6base ∧
    (ipToNat v6base + 1 * 2 ^ (128 - 64)) % 2 ^ 128 ≠ ipToNat v6base ∧
    findAvailableCIDR ⟨List.replicate 16 0, prefixMaskBytes 0 16⟩ 128 [] = none := by
  refine ⟨by rfl, by decide, by rfl⟩

/-- C3: from pool `10.0.0.0/16` with no allocations, the first /27
request returns `10.0.0.0/27` and registers it; the second request, with
that allocation present, returns `10.0.0.32/27`. -/
theorem c3_scenario_b :
    allocateCIDRFromPool [("pool", ⟨"pool", ["10.0.0.0/16"]⟩)] [] "pool" 27 =
      .ok ("10.0.0.0/27", "pool-10.0.0.0/27",
        [⟨"pool-10.0.0.0/27", "pool", "10.0.0.0/27", 27⟩]) ∧
    allocateCIDRFromPool [("pool", ⟨"pool", ["10.0.0.0/16"]⟩)]
        [⟨"pool-10.0.0.0/27", "pool", "10.0.0.0/27", 27⟩] "pool" 27 =
      .ok ("10.0.0.32/27", "pool-10.0.0.32/27",
        [⟨"pool-10.0.0.32/27", "pool", "10.0.0.32/27", 27⟩,
         ⟨"pool-10.0.0.0/27", "pool", "10.0.0.0/27", 27⟩]) := by
  exact ⟨by rfl, by rfl⟩

/-- C8 counterexample: the allocation search does not surface malformed
CIDR strings.  With the syntactically invalid range `"bogus"` first in
the pool and a stored allocation whose CIDR is the invalid `"garbage"`,
allocation succeeds silently instead of reporting a validation error. -/
theorem c8_counterexample :
    parseCIDR "bogus" = none ∧
    parseCIDR "garbage" = none ∧
    allocateCIDRFromPool [("p", ⟨"p", ["bogus", "10.0.0.0/24"]⟩)]
        [⟨"x", "p", "garbage", 24⟩] "p" 24 =
      .ok ("10.0.0.0/24", "p-10.0.0.0/24",
        [⟨"p-10.0.0.0/24", "p", "10.0.0.0/24", 24⟩, ⟨"x", "p", "garbage", 24⟩]) := by
  exact ⟨by rfl, by rfl, by rfl⟩

/-- C8 (amended): allocation creation rejects prefix lengths outside
`[0, 128]`; pool create and update reject a list containing any
syntactically invalid CIDR, reporting the first one; but the allocation
search silently skips malformed CIDR strings, both among the pool's
ranges and among the stored allocations, instead of surfacing them. -/
theorem c8_validation (ps : List (String × Pool)) (as : List Allocation)
    (n : String) (L : Int) (cs : List String) :
    ((L < 0 ∨ 128 < L) → allocationCreate ps as n L = .error .invalidPrefixLength) ∧
    ((∃ c ∈ cs, parseCIDR c = none) →
      (∃ c0 ∈ cs, parseCIDR c0 = none ∧
        poolCreate ps n cs = .error (.invalidCIDR c0) ∧
        poolUpdate ps n cs = .error (.invalidCIDR c0))) ∧
    (∀ c rest ad, parseCIDR c = none →
      allocLoop (c :: rest) L ad = allocLoop rest L ad) ∧
    (∀ al rest, al.poolName = n → parseCIDR al.allocatedIP = none →
      collectAllocated (al :: rest) n = collectAllocated rest n) := by
  refine ⟨?_, ?_, ?_, ?_⟩
  · intro h
    simp [allocationCreate, h]
  · intro h
    have hfind : (cs.find? (fun c => (parseCIDR c).isNone)).isSome := by
      rw [List.find?_isSome]
      obtain ⟨c, hc, hp⟩ := h
      exact ⟨c, hc, by simp [hp]⟩
    obtain ⟨c0, hc0⟩ := Option.isSome_iff_exists.mp hfind
    refine ⟨c0, List.mem_of_find?_eq_some hc0, ?_, ?_, ?_⟩
    · have := List.find?_some hc0
      simpa [Option.isNone_iff_eq_none] using this
    · simp [poolCreate, hc0]
    · simp [poolUpdate, hc0]
  · intro c rest ad hc
    simp [allocLoop, hc]
  · intro al rest hpn hc
    simp [collectAllocated, hpn, hc]

/-- A witness instantiating C8's hypotheses: prefix length 129 is
rejected, the invalid pool list `["10.0.0.0/24", "bogus"]` is rejected at
`"bogus"`, and a malformed range or stored allocation is skipped. -/
theorem c8_validation_witness :
    allocationCreate [] [] "p" 129 = .error .invalidPrefixLength ∧
    (∃ c0 ∈ ["10.0.0.0/24", "bogus"], parseCIDR c0 = none ∧
      poolCreate [] "p" ["10.0.0.0/24", "bogus"] = .error (.invalidCIDR c0) ∧
      poolUpdate [] "p" ["10.0.0.0/24", "bogus"] = .error (.invalidCIDR c0)) ∧
    allocLoop ["bogus"] 24 [] = allocLoop [] 24 [] ∧
    collectAllocated [⟨"x", "p", "garbage", 24⟩] "p" = collectAllocated [] "p" := by
  have h := c8_validation [] [] "p" 129 ["10.0.0.0/24", "bogus"]
  refine ⟨h.1 (by decide), h.2.1 ⟨"bogus", by simp, by rfl⟩, ?_, ?_⟩
  · exact (c8_validation [] [] "p" 24 []).2.2.1 "bogus" [] [] (by rfl)
  · exact (c8_validation [] [] "p" 24 []).2.2.2 ⟨"x", "p", "garbage", 24⟩ [] rfl (by rfl)

/-! ## Soundness of the candidate search -/

theorem findFrom_sound (pool : IPNet) (L : Int) (ad : List IPNet) (rm : List Nat) (bits : Int) :
    ∀ fuel i cand, findFrom pool L ad rm bits i fuel = some cand →
      contains pool cand.ip = true ∧ contains pool (getLastIPInCIDR cand) = true ∧
      cidrsOverlap cand ad = false := by
  intro fuel
  induction fuel with
  | zero => intro i cand h; exact absurd h (by simp [findFrom])
  | succ m ih =>
    intro i cand h
    simp only [findFrom] at h
    split at h
    · exact ih (i + 1) cand h
    · split at h
      · exact ih (i + 1) cand h
      · split at h
        · exact ih (i + 1) cand h
        · rename_i h1 h2 h3
          cases h
          refine ⟨?_, ?_, ?_⟩
          · simpa using h1
          · simpa using h2
          · simpa using h3

theorem findAvailableCIDR_sound (pnet : IPNet) (L : Int) (ad : List IPNet) (cand : IPNet)
    (h : findAvailableCIDR pnet L ad = some cand) :
    contains pnet cand.ip = true ∧ contains pnet (getLastIPInCIDR cand) = true ∧
    cidrsOverlap cand ad = false := by
  unfold findAvailableCIDR at h
  dsimp only at h
  split at h
  · exact absurd h (by simp)
  · exact findFrom_sound pnet L ad _ _ _ _ cand h

theorem allocLoop_sound (cs : List String) (L : Int) (ad : List IPNet) (cand : IPNet)
    (h : allocLoop cs L ad = some cand) :
    (∃ c ∈ cs, ∃ pnet, parseCIDR c = some pnet ∧ contains pnet cand.ip = true ∧
      contains pnet (getLastIPInCIDR cand) = true) ∧
    cidrsOverlap cand ad = false := by
  induction cs with
  | nil => exact absurd h (by simp [allocLoop])
  | cons c rest ih =>
    rw [allocLoop] at h
    split at h
    · obtain ⟨⟨c0, hc0, hrest⟩, hov⟩ := ih h
      exact ⟨⟨c0, List.mem_cons_of_mem c hc0, hrest⟩, hov⟩
    · rename_i pnet hp
      split at h
      · obtain ⟨⟨c0, hc0, hrest⟩, hov⟩ := ih h
        exact ⟨⟨c0, List.mem_cons_of_mem c hc0, hrest⟩, hov⟩
      · split at h
        · rename_i cand2 hf
          cases h
          obtain ⟨h1, h2, h3⟩ := findAvailableCIDR_sound pnet L ad cand hf
          exact ⟨⟨c, List.mem_cons_self c rest, pnet, hp, h1, h2⟩, h3⟩
        · obtain ⟨⟨c0, hc0, hrest⟩, hov⟩ := ih h
          exact ⟨⟨c0, List.mem_cons_of_mem c hc0, hrest⟩, hov⟩

theorem mem_collectAllocated (as : List Allocation) (n : String) (al : Allocation)
    (hal : al ∈ as) (hpn : al.poolName = n) (anet : IPNet)
    (hparse : parseCIDR al.allocatedIP = some anet) :
    anet ∈ collectAllocated as n := by
  unfold collectAllocated
  exact List.mem_filterMap.mpr ⟨al, hal, by simp [hpn, hparse]⟩

/-- C1: a successful allocation's candidate block has both its first and
last address inside one of the pool's ranges, and neither endpoint of the
candidate lies inside any of the pool's existing (parsable) allocations
nor vice versa. -/
theorem c1_allocation_sound (ps : List (String × Pool)) (as : List Allocation)
    (n : String) (L : Int) (ip id : String) (as2 : List Allocation)
    (h : allocateCIDRFromPool ps as n L = .ok (ip, id, as2)) :
    ∃ pool cand, lookupPair ps n = some pool ∧ ip = netString cand ∧
      (∃ c ∈ pool.cidrs, ∃ pnet, parseCIDR c = some pnet ∧
        contains pnet cand.ip = true ∧ contains pnet (getLastIPInCIDR cand) = true) ∧
      (∀ al ∈ as, al.poolName = n → ∀ anet, parseCIDR al.allocatedIP = some anet →
        contains cand anet.ip = false ∧ contains anet cand.ip = false ∧
        contains cand (getLastIPInCIDR anet) = false ∧
        contains anet (getLastIPInCIDR cand) = false) := by
  unfold allocateCIDRFromPool at h
  cases hl : lookupPair ps n with
  | none => rw [hl] at h; exact absurd h (by simp)
  | some pool =>
    rw [hl] at h
    dsimp only at h
    cases hc : allocLoop pool.cidrs L (collectAllocated as n) with
    | none => rw [hc] at h; exact absurd h (by simp)
    | some cand =>
      rw [hc] at h
      simp only [Except.ok.injEq, Prod.mk.injEq] at h
      obtain ⟨hip, _, _⟩ := h
      obtain ⟨hin, hov⟩ := allocLoop_sound pool.cidrs L (collectAllocated as n) cand hc
      refine ⟨pool, cand, rfl, hip.symm, hin, ?_⟩
      intro al hal hpn anet hparse
      have hmem := mem_collectAllocated as n al hal hpn anet hparse
      have hfour := (List.any_eq_false.mp hov) anet hmem
      simp only [Bool.or_eq_true, not_or, Bool.not_eq_true] at hfour
      exact ⟨hfour.1.1.1, hfour.1.1.2, hfour.1.2, hfour.2⟩

/-- A witness instantiating C1's hypothesis with an IPv6 pool: from
`2001:db8::/32` the program returns `2001:db8::/64`, inside the range
and disjoint from the pool's existing (IPv4) allocation. -/
theorem c1_witness :
    ∃ pool cand,
      lookupPair [("p6", Pool.mk "p6" ["2001:db8::/32"])] "p6" = some pool ∧
      "2001:db8::/64" = netString cand ∧
      (∃ c ∈ pool.cidrs, ∃ pnet, parseCIDR c = some pnet ∧
        contains pnet cand.ip = true ∧ contains pnet (getLastIPInCIDR cand) = true) ∧
      (∀ al ∈ [Allocation.mk "x" "p6" "10.0.0.0/27" 27],
        al.poolName = "p6" → ∀ anet, parseCIDR al.allocatedIP = some anet →
        contains cand anet.ip = false ∧ contains anet cand.ip = false ∧
        contains cand (getLastIPInCIDR anet) = false ∧
        contains anet (getLastIPInCIDR cand) = false) :=
  c1_allocation_sound [("p6", ⟨"p6", ["2001:db8::/32"]⟩)]
    [⟨"x", "p6", "10.0.0.0/27", 27⟩] "p6" 64
    "2001:db8::/64" "p6-2001:db8::/64"
    [⟨"p6-2001:db8::/64", "p6", "2001:db8::/64", 64⟩,
     ⟨"x", "p6", "10.0.0.0/27", 27⟩]
    (by rfl)

/-! ## Exhaustion -/

theorem allocLoop_cons (c : String) (rest : List String) (L : Int) (ad : List IPNet) :
    allocLoop (c :: rest) L ad =
      match rangeYield c L ad with
      | some cand => some cand
      | none => allocLoop rest L ad := by
  cases hp : parseCIDR c with
  | none => simp [allocLoop, rangeYield, hp]
  | some pnet =>
    by_cases hL : L < (maskSize pnet.mask).1
    · simp [allocLoop, rangeYield, hp, hL]
    · simp only [allocLoop, rangeYield, hp, if_neg hL]

theorem allocLoop_eq_none_iff (cs : List String) (L : Int) (ad : List IPNet) :
    allocLoop cs L ad = none ↔ ∀ c ∈ cs, rangeYield c L ad = none := by
  induction cs with
  | nil => simp [allocLoop]
  | cons c rest ih =>
    rw [allocLoop_cons]
    cases hy : rangeYield c L ad with
    | some cand =>
      constructor
      · intro h; exact absurd h (by simp)
      · intro h
        exact absurd (h c (List.mem_cons_self c rest)) (by simp [hy])
    | none =>
      simp only [List.mem_cons]
      constructor
      · intro h x hx
        rcases hx with hx | hx
        · subst hx; exact hy
        · exact (ih.mp h) x hx
      · intro h
        exact ih.mpr (fun x hx => h x (Or.inr hx))

theorem allocate_exhausted (ps : List (String × Pool)) (as : List Allocation)
    (n : String) (L : Int) (pool : Pool) (h : lookupPair ps n = some pool) :
    allocateCIDRFromPool ps as n L = .error .exhausted ↔
      allocLoop pool.cidrs L (collectAllocated as n) = none := by
  unfold allocateCIDRFromPool
  rw [h]
  dsimp only
  cases hc : allocLoop pool.cidrs L (collectAllocated as n) with
  | none => simp
  | some cand => simp

/-- C7: with the pool present, the allocation reports exhaustion exactly
when no range of the pool yields a passing candidate; a range whose own
prefix length exceeds the requested one yields nothing; and an empty CIDR
list exhausts immediately. -/
theorem c7_exhaustion (ps : List (String × Pool)) (as : List Allocation)
    (n : String) (L : Int) (pool : Pool)
    (h : lookupPair ps n = some pool) :
    (allocateCIDRFromPool ps as n L = .error .exhausted ↔
      ∀ c ∈ pool.cidrs, rangeYield c L (collectAllocated as n) = none) ∧
    (∀ c pnet ad, parseCIDR c = some pnet → L < (maskSize pnet.mask).1 →
      rangeYield c L ad = none) ∧
    (pool.cidrs = [] → allocateCIDRFromPool ps as n L = .error .exhausted) := by
  refine ⟨?_, ?_, ?_⟩
  · rw [allocate_exhausted ps as n L pool h]
    exact allocLoop_eq_none_iff pool.cidrs L (collectAllocated as n)
  · intro c pnet ad hp hlt
    rw [rangeYield, hp]
    simp [hlt]
  · intro hnil
    rw [allocate_exhausted ps as n L pool h, hnil]
    rfl

/-- A witness instantiating C7's hypothesis: pool `10.0.0.0/24`,
requested prefix 16 (larger than the range), which exhausts. -/
theorem c7_witness :
    (allocateCIDRFromPool [("p", Pool.mk "p" ["10.0.0.0/24"])] [] "p" 16 = .error .exhausted ↔
      ∀ c ∈ (Pool.mk "p" ["10.0.0.0/24"]).cidrs, rangeYield c 16 (collectAllocated [] "p") = none) ∧
    (∀ c pnet ad, parseCIDR c = some pnet → 16 < (maskSize pnet.mask).1 →
      rangeYield c 16 ad = none) ∧
    ((Pool.mk "p" ["10.0.0.0/24"]).cidrs = [] →
      allocateCIDRFromPool [("p", Pool.mk "p" ["10.0.0.0/24"])] [] "p" 16 = .error .exhausted) :=
  c7_exhaustion [("p", ⟨"p", ["10.0.0.0/24"]⟩)] [] "p" 16 ⟨"p", ["10.0.0.0/24"]⟩ (by rfl)

/-! ## Determinism -/

theorem any_perm {α : Type} (p : α → Bool) {l1 l2 : List α} (h : l1.Perm l2) :
    l1.any p = l2.any p := by
  cases h1 : l1.any p
  · cases h2 : l2.any p
    · rfl
    · rw [List.any_eq_false] at h1
      rw [List.any_eq_true] at h2
      obtain ⟨x, hx, hp⟩ := h2
      exact absurd hp (h1 x (h.mem_iff.mpr hx))
  · cases h2 : l2.any p
    · rw [List.any_eq_false] at h2
      rw [List.any_eq_true] at h1
      obtain ⟨x, hx, hp⟩ := h1
      exact absurd hp (h2 x (h.mem_iff.mp hx))
    · rfl

theorem cidrsOverlap_perm (c : IPNet) {ad1 ad2 : List IPNet} (h : ad1.Perm ad2) :
    cidrsOverlap c ad1 = cidrsOverlap c ad2 :=
  any_perm _ h

theorem findFrom_perm (pool : IPNet) (L : Int) (rm : List Nat) (bits : Int)
    {ad1 ad2 : List IPNet} (h : ad1.Perm ad2) :
    ∀ fuel i, findFrom pool L ad1 rm bits i fuel = findFrom pool L ad2 rm bits i fuel := by
  intro fuel
  induction fuel with
  | zero => intro i; rfl
  | succ m ih =>
    intro i
    simp only [findFrom]
    rw [cidrsOverlap_perm _ h, ih (i + 1)]

theorem findAvailableCIDR_perm (pnet : IPNet) (L : Int) {ad1 ad2 : List IPNet}
    (h : ad1.Perm ad2) :
    findAvailableCIDR pnet L ad1 = findAvailableCIDR pnet L ad2 := by
  unfold findAvailableCIDR
  dsimp only
  rw [findFrom_perm pnet L _ _ h]

theorem rangeYield_perm (c : String) (L : Int) {ad1 ad2 : List IPNet}
    (h : ad1.Perm ad2) :
    rangeYield c L ad1 = rangeYield c L ad2 := by
  unfold rangeYield
  cases hp : parseCIDR c with
  | none => rfl
  | some pnet =>
    dsimp only
    rw [findAvailableCIDR_perm pnet L h]

theorem allocLoop_perm (cs : List String) (L : Int) {ad1 ad2 : List IPNet}
    (h : ad1.Perm ad2) :
    allocLoop cs L ad1 = allocLoop cs L ad2 := by
  induction cs with
  | nil => rfl
  | cons c rest ih =>
    rw [allocLoop_cons, allocLoop_cons, rangeYield_perm c L h, ih]

theorem collectAllocated_filter (as : List Allocation) (n : String) :
    collectAllocated as n =
      (as.filter (fun a => a.poolName == n)).filterMap (fun al => parseCIDR al.allocatedIP) := by
  unfold collectAllocated
  induction as with
  | nil => rfl
  | cons a rest ih =>
    rw [List.filterMap_cons, List.filter_cons]
    cases hb : a.poolName == n
    · simp only [hb, Bool.false_eq_true, if_false, cond_false]
      simpa using ih
    · simp only [hb, if_true, cond_true, List.filterMap_cons]
      cases parseCIDR a.allocatedIP
      · simpa using ih
      · simpa using ih

theorem collectAllocated_perm (n : String) {as1 as2 : List Allocation}
    (h : (as1.filter (fun a => a.poolName == n)).Perm (as2.filter (fun a => a.poolName == n))) :
    (collectAllocated as1 n).Perm (collectAllocated as2 n) := by
  rw [collectAllocated_filter, collectAllocated_filter]
  exact h.filterMap _

/-- C4: the search outcome — the candidate CIDR and id, or the identical
exhaustion report — depends only on the looked-up pool and on the pool's
allocation set, not on the enumeration order of the allocations map. -/
theorem c4_deterministic (ps1 ps2 : List (String × Pool)) (as1 as2 : List Allocation)
    (n : String) (L : Int)
    (hp : lookupPair ps1 n = lookupPair ps2 n)
    (ha : (as1.filter (fun a => a.poolName == n)).Perm
          (as2.filter (fun a => a.poolName == n))) :
    resultView (allocateCIDRFromPool ps1 as1 n L) =
    resultView (allocateCIDRFromPool ps2 as2 n L) := by
  unfold allocateCIDRFromPool
  rw [hp]
  cases h2 : lookupPair ps2 n with
  | none => rfl
  | some pool =>
    dsimp only
    rw [allocLoop_perm pool.cidrs L (collectAllocated_perm n ha)]
    cases allocLoop pool.cidrs L (collectAllocated as2 n) with
    | none => rfl
    | some cand => rfl

/-- A witness instantiating C4's hypotheses: the same two allocations in
either enumeration order give the identical third candidate. -/
theorem c4_witness :
    resultView (allocateCIDRFromPool [("p", Pool.mk "p" ["10.0.0.0/16"])]
      [⟨"p-10.0.0.0/27", "p", "10.0.0.0/27", 27⟩,
       ⟨"p-10.0.0.32/27", "p", "10.0.0.32/27", 27⟩] "p" 27) =
    resultView (allocateCIDRFromPool [("p", Pool.mk "p" ["10.0.0.0/16"])]
      [⟨"p-10.0.0.32/27", "p", "10.0.0.32/27", 27⟩,
       ⟨"p-10.0.0.0/27", "p", "10.0.0.0/27", 27⟩] "p" 27) :=
  c4_deterministic [("p", ⟨"p", ["10.0.0.0/16"]⟩)] [("p", ⟨"p", ["10.0.0.0/16"]⟩)]
    [⟨"p-10.0.0.0/27", "p", "10.0.0.0/27", 27⟩,
     ⟨"p-10.0.0.32/27", "p", "10.0.0.32/27", 27⟩]
    [⟨"p-10.0.0.32/27", "p", "10.0.0.32/27", 27⟩,
     ⟨"p-10.0.0.0/27", "p", "10.0.0.0/27", 27⟩]
    "p" 27 (by rfl) (by decide)

/-- A witness instantiating C9's hypotheses at a concrete one-pool,
one-allocation state. -/
theorem c9_witness :
    poolResourceDelete [("p", Pool.mk "p" ["10.0.0.0/24"])]
      [⟨"p-10.0.0.0/27", "p", "10.0.0.0/27", 27⟩] "p" = .error .hasAllocations ∧
    lookupPair (poolsAfterDelete [("p", Pool.mk "p" ["10.0.0.0/24"])]
      [⟨"p-10.0.0.0/27", "p", "10.0.0.0/27", 27⟩] "p") "p" = some (Pool.mk "p" ["10.0.0.0/24"]) ∧
    (∃ st2, S3.DeletePool (S3Data.mk [("p", Pool.mk "p" ["10.0.0.0/24"])]
      [("a1", StorageAllocation.mk "a1" "p" "10.0.0.0/27" 27)]) "p" = .ok st2 ∧
      lookupPair st2.pools "p" = none) ∧
    (∀ m, lookupPair (S3Data.mk [("p", Pool.mk "p" ["10.0.0.0/24"])]
      [("a1", StorageAllocation.mk "a1" "p" "10.0.0.0/27" 27)]).pools m = none →
      S3.DeletePool (S3Data.mk [("p", Pool.mk "p" ["10.0.0.0/24"])]
      [("a1", StorageAllocation.mk "a1" "p" "10.0.0.0/27" 27)]) m = .error .notFound) :=
  c9_pool_delete_policy [("p", ⟨"p", ["10.0.0.0/24"]⟩)]
    [⟨"p-10.0.0.0/27", "p", "10.0.0.0/27", 27⟩] "p"
    ⟨[("p", ⟨"p", ["10.0.0.0/24"]⟩)], [("a1", ⟨"a1", "p", "10.0.0.0/27", 27⟩)]⟩
    ⟨"p", ["10.0.0.0/24"]⟩ ⟨"p", ["10.0.0.0/24"]⟩ (by rfl) (by rfl) (by rfl)

/-! ## Byte and big-endian arithmetic toolbox -/

theorem prefixMaskBytes_length (L len : Nat) : (prefixMaskBytes L len).length = len := by
  induction len generalizing L with
  | zero => rfl
  | succ n ih =>
    rw [prefixMaskBytes]
    split <;> simp [ih]

theorem prefixMaskBytes_valid (L len : Nat) : ValidBytes (prefixMaskBytes L len) := by
  induction len generalizing L with
  | zero => intro b hb; simp [prefixMaskBytes] at hb
  | succ n ih =>
    intro b hb
    rw [prefixMaskBytes] at hb
    split at hb <;> rcases List.mem_cons.mp hb with h | h
    · omega
    · exact ih _ b h
    · have : (1 : Nat) ≤ 2 ^ (8 - L) := Nat.one_le_two_pow
      omega
    · exact ih 0 b h

theorem prefixMaskBytes_zero (len : Nat) : prefixMaskBytes 0 len = List.replicate len 0 := by
  induction len with
  | zero => rfl
  | succ n ih => rw [prefixMaskBytes]; simp [ih, List.replicate_succ]

set_option maxRecDepth 10000 in
theorem byte_land_255 : ∀ b < 256, Nat.land b 255 = b := by decide

set_option maxRecDepth 10000 in
theorem byte_land_mid : ∀ b < 256, ∀ k < 9,
    Nat.land b (256 - 2 ^ (8 - k)) = b - b % 2 ^ (8 - k) := by
  decide

set_option maxRecDepth 10000 in
theorem byte_lor_mid : ∀ b < 256, ∀ k < 9,
    b % 2 ^ (8 - k) = 0 → Nat.lor b (2 ^ (8 - k) - 1) = b + 2 ^ (8 - k) - 1 := by
  decide

set_option maxRecDepth 10000 in
theorem byte_aligned_bound : ∀ b < 256, ∀ k < 9, b % 2 ^ (8 - k) = 0 → b + 2 ^ (8 - k) - 1 < 256 := by
  decide

theorem byte_lor_zero (b : Nat) : Nat.lor b 0 = b := Nat.or_zero b

theorem ipToNat_lt (u : List Nat) (hu : ValidBytes u) : ipToNat u < 256 ^ u.length := by
  induction u with
  | nil => simp [ipToNat]
  | cons b rest ih =>
    have hb : b < 256 := hu b (List.mem_cons_self b rest)
    have ht := ih (fun x hx => hu x (List.mem_cons_of_mem b hx))
    rw [ipToNat]
    have hsm : (b + 1) * 256 ^ rest.length = b * 256 ^ rest.length + 256 ^ rest.length :=
      Nat.succ_mul b _
    have hstep : b * 256 ^ rest.length + ipToNat rest < (b + 1) * 256 ^ rest.length := by
      omega
    calc b * 256 ^ rest.length + ipToNat rest
        < (b + 1) * 256 ^ rest.length := hstep
      _ ≤ 256 * 256 ^ rest.length := Nat.mul_le_mul_right _ (by omega)
      _ = 256 ^ (b :: rest).length := by rw [List.length_cons, pow_succ, mul_comm]

theorem ipToNat_inj (u v : List Nat) (hlen : u.length = v.length)
    (hu : ValidBytes u) (hv : ValidBytes v) (h : ipToNat u = ipToNat v) : u = v := by
  induction u generalizing v with
  | nil => cases v with
    | nil => rfl
    | cons c rest2 => simp at hlen
  | cons b rest ih =>
    cases v with
    | nil => simp at hlen
    | cons c rest2 =>
      have hlen2 : rest.length = rest2.length := by simpa using hlen
      have hu2 : ValidBytes rest := fun x hx => hu x (List.mem_cons_of_mem b hx)
      have hv2 : ValidBytes rest2 := fun x hx => hv x (List.mem_cons_of_mem c hx)
      have hTu := ipToNat_lt rest hu2
      have hTv := ipToNat_lt rest2 hv2
      rw [ipToNat, ipToNat, hlen2] at h
      have hA : 0 < 256 ^ rest2.length := pow_pos (by omega) _
      have hb : b = c := by
        have h1 : (ipToNat rest + b * 256 ^ rest2.length) / 256 ^ rest2.length = b := by
          rw [Nat.add_mul_div_right _ _ hA, Nat.div_eq_of_lt (hlen2 ▸ hTu)]
          omega
        have h2 : (ipToNat rest2 + c * 256 ^ rest2.length) / 256 ^ rest2.length = c := by
          rw [Nat.add_mul_div_right _ _ hA, Nat.div_eq_of_lt hTv]
          omega
        have e1 : ipToNat rest + b * 256 ^ rest2.length =
            ipToNat rest2 + c * 256 ^ rest2.length := by omega
        rw [e1, h2] at h1
        exact h1.symm
      subst hb
      have hT : ipToNat rest = ipToNat rest2 := by omega
      rw [ih rest2 hlen2 hu2 hv2 hT]

theorem zip_land_valid (u m : List Nat) (hu : ValidBytes u) :
    ValidBytes (List.zipWith Nat.land u m) := by
  induction u generalizing m with
  | nil => intro b hb; simp at hb
  | cons x xs ih =>
    cases m with
    | nil => intro b hb; simp at hb
    | cons y ys =>
      intro b hb
      rw [List.zipWith_cons_cons] at hb
      rcases List.mem_cons.mp hb with h | h
      · subst h
        have hx : x < 256 := hu x (List.mem_cons_self x xs)
        have hle : Nat.land x y ≤ x := Nat.and_le_left
        omega
      · exact ih ys (fun z hz => hu z (List.mem_cons_of_mem x hz)) b h

theorem ipToNat_replicate_zero (n : Nat) : ipToNat (List.replicate n 0) = 0 := by
  induction n with
  | zero => rfl
  | succ m ih => rw [List.replicate_succ, ipToNat, ih]; simp

theorem ipToNat_replicate_255 (n : Nat) : ipToNat (List.replicate n 255) = 256 ^ n - 1 := by
  induction n with
  | zero => rfl
  | succ m ih =>
    rw [List.replicate_succ, ipToNat, ih, List.length_replicate]
    have : (0:Nat) < 256 ^ m := pow_pos (by omega) m
    have h2 : (256:Nat) ^ (m + 1) = 256 * 256 ^ m := by rw [pow_succ, mul_comm]
    omega

theorem zip_land_zero (u : List Nat) (n : Nat) (hn : u.length = n) :
    List.zipWith Nat.land u (List.replicate n 0) = List.replicate n 0 := by
  induction u generalizing n with
  | nil => subst hn; rfl
  | cons x xs ih =>
    cases n with
    | zero => simp at hn
    | succ m =>
      rw [List.replicate_succ, List.zipWith_cons_cons, ih m (by simpa using hn)]
      have hz : Nat.land x 0 = 0 := Nat.and_zero x
      rw [hz]

theorem pow256_eq (n : Nat) : (256 : Nat) ^ n = 2 ^ (8 * n) := by
  rw [show (256 : Nat) = 2 ^ 8 from rfl, ← pow_mul]

theorem zip_land_mask_toNat (u : List Nat) (L : Nat) (hu : ValidBytes u) (hL : L ≤ 8 * u.length) :
    ipToNat (List.zipWith Nat.land u (prefixMaskBytes L u.length)) =
      ipToNat u - ipToNat u % 2 ^ (8 * u.length - L) := by
  induction u generalizing L with
  | nil => simp [ipToNat, prefixMaskBytes]
  | cons b rest ih =>
    have hb : b < 256 := hu b (List.mem_cons_self b rest)
    have hrest : ValidBytes rest := fun x hx => hu x (List.mem_cons_of_mem b hx)
    have hT := ipToNat_lt rest hrest
    rw [List.length_cons] at hL ⊢
    rw [prefixMaskBytes]
    by_cases h8 : 8 ≤ L
    · rw [if_pos h8, List.zipWith_cons_cons, ipToNat, ipToNat]
      rw [byte_land_255 b hb]
      rw [List.length_zipWith, prefixMaskBytes_length, min_self]
      rw [ih (L - 8) hrest (by omega)]
      have he : 8 * (rest.length + 1) - L = 8 * rest.length - (L - 8) := by omega
      rw [he]
      have hh : 8 * rest.length - (L - 8) ≤ 8 * rest.length := by omega
      have hdvd : 2 ^ (8 * rest.length - (L - 8)) ∣ 256 ^ rest.length := by
        rw [pow256_eq]
        exact pow_dvd_pow 2 hh
      obtain ⟨k, hk⟩ := hdvd
      have hmod : (b * 256 ^ rest.length + ipToNat rest) % 2 ^ (8 * rest.length - (L - 8)) =
          ipToNat rest % 2 ^ (8 * rest.length - (L - 8)) := by
        rw [hk, show b * (2 ^ (8 * rest.length - (L - 8)) * k) + ipToNat rest =
          ipToNat rest + b * k * 2 ^ (8 * rest.length - (L - 8)) by ring]
        exact Nat.add_mul_mod_self_right _ _ _
      have hml : ipToNat rest % 2 ^ (8 * rest.length - (L - 8)) ≤ ipToNat rest :=
        Nat.mod_le _ _
      omega
    · rw [if_neg h8, List.zipWith_cons_cons, ipToNat, ipToNat]
      rw [byte_land_mid b hb L (by omega)]
      rw [prefixMaskBytes_zero, zip_land_zero rest rest.length rfl]
      rw [ipToNat_replicate_zero, List.length_replicate]
      have he : 8 * (rest.length + 1) - L = (8 - L) + 8 * rest.length := by omega
      rw [he]
      set s := 2 ^ (8 - L) with hs
      set A := 2 ^ (8 * rest.length) with hA
      have hA' : (256 : Nat) ^ rest.length = A := pow256_eq rest.length
      have hpow : 2 ^ ((8 - L) + 8 * rest.length) = s * A := pow_add 2 _ _
      have hspos : 0 < s := pow_pos (by omega) _
      have hApos : 0 < A := pow_pos (by omega) _
      have hqr : s * (b / s) + b % s = b := Nat.div_add_mod b s
      have hrlt : b % s < s := Nat.mod_lt b hspos
      have hTA : ipToNat rest < A := by rw [← hA']; exact hT
      have hmod : (b * A + ipToNat rest) % (s * A) = b % s * A + ipToNat rest := by
        have hsplit : b * A + ipToNat rest = s * A * (b / s) + (b % s * A + ipToNat rest) := by
          calc b * A + ipToNat rest = (s * (b / s) + b % s) * A + ipToNat rest := by rw [hqr]
            _ = s * A * (b / s) + (b % s * A + ipToNat rest) := by ring
        rw [hsplit, Nat.mul_add_mod]
        have hbound : b % s * A + ipToNat rest < s * A := by
          have h1 : b % s + 1 ≤ s := hrlt
          have h2 : (b % s + 1) * A ≤ s * A := Nat.mul_le_mul_right A h1
          have h3 : (b % s + 1) * A = b % s * A + A := by ring
          omega
        exact Nat.mod_eq_of_lt hbound
      rw [hA', hpow, hmod]
      have hsub : (b - b % s) * A = b * A - b % s * A := Nat.sub_mul b (b % s) A
      have hle : b % s * A ≤ b * A := Nat.mul_le_mul_right A (Nat.mod_le b s)
      omega

theorem aligned_of_masked (u : List Nat) (L : Nat) (hu : ValidBytes u) (hL : L ≤ 8 * u.length)
    (h : List.zipWith Nat.land u (prefixMaskBytes L u.length) = u) :
    ipToNat u % 2 ^ (8 * u.length - L) = 0 := by
  have hm := zip_land_mask_toNat u L hu hL
  rw [h] at hm
  have hle : ipToNat u % 2 ^ (8 * u.length - L) ≤ ipToNat u := Nat.mod_le _ _
  omega

theorem zip_replicate_lor (n : Nat) :
    List.zipWith (fun b m => Nat.lor b (255 - m)) (List.replicate n 0) (List.replicate n 0) =
      List.replicate n 255 := by
  induction n with
  | zero => rfl
  | succ m ih =>
    rw [List.replicate_succ, List.replicate_succ, List.zipWith_cons_cons, ih]
    rfl

theorem zip_lor_last_toNat (u : List Nat) (L : Nat) (hu : ValidBytes u) (hL : L ≤ 8 * u.length)
    (hal : List.zipWith Nat.land u (prefixMaskBytes L u.length) = u) :
    ipToNat (List.zipWith (fun b m => Nat.lor b (255 - m)) u (prefixMaskBytes L u.length)) =
      ipToNat u + 2 ^ (8 * u.length - L) - 1 ∧
    ValidBytes (List.zipWith (fun b m => Nat.lor b (255 - m)) u (prefixMaskBytes L u.length)) := by
  induction u generalizing L with
  | nil =>
    constructor
    · simp [ipToNat, prefixMaskBytes]
    · intro b hb; simp [prefixMaskBytes] at hb
  | cons b rest ih =>
    have hb : b < 256 := hu b (List.mem_cons_self b rest)
    have hrest : ValidBytes rest := fun x hx => hu x (List.mem_cons_of_mem b hx)
    rw [List.length_cons] at hL hal ⊢
    rw [prefixMaskBytes] at hal ⊢
    by_cases h8 : 8 ≤ L
    · rw [if_pos h8] at hal ⊢
      rw [List.zipWith_cons_cons] at hal ⊢
      have hal2 := List.cons.injEq .. ▸ hal
      have haltail : List.zipWith Nat.land rest (prefixMaskBytes (L - 8) rest.length) = rest := by
        have := congrArg List.tail hal
        simpa using this
      obtain ⟨ihv, ihval⟩ := ih (L - 8) hrest (by omega) haltail
      constructor
      · rw [ipToNat, ipToNat]
        have hlz : (255 : Nat) - 255 = 0 := rfl
        rw [hlz, byte_lor_zero b]
        rw [List.length_zipWith, prefixMaskBytes_length, min_self]
        rw [ihv]
        have he : 8 * (rest.length + 1) - L = 8 * rest.length - (L - 8) := by omega
        rw [he]
        have hp : (0:Nat) < 2 ^ (8 * rest.length - (L - 8)) := pow_pos (by omega) _
        omega
      · intro x hx
        rw [show (255:Nat) - 255 = 0 from rfl, byte_lor_zero b] at hx
        rcases List.mem_cons.mp hx with h | h
        · omega
        · exact ihval x h
    · rw [if_neg h8] at hal ⊢
      rw [List.zipWith_cons_cons] at hal ⊢
      have hhead : Nat.land b (256 - 2 ^ (8 - L)) = b := by
        have := congrArg List.head? hal
        simpa using this
      have haltail : List.zipWith Nat.land rest (prefixMaskBytes 0 rest.length) = rest := by
        have := congrArg List.tail hal
        simpa using this
      have halign : b % 2 ^ (8 - L) = 0 := by
        rw [byte_land_mid b hb L (by omega)] at hhead
        have : b % 2 ^ (8 - L) ≤ b := Nat.mod_le _ _
        omega
      have hrest0 : rest = List.replicate rest.length 0 := by
        rw [prefixMaskBytes_zero, zip_land_zero rest rest.length rfl] at haltail
        exact haltail.symm
      have hcompl : (255 : Nat) - (256 - 2 ^ (8 - L)) = 2 ^ (8 - L) - 1 := by
        have h1 : (2:Nat) ^ (8 - L) ≤ 2 ^ 8 := Nat.pow_le_pow_right (by omega) (by omega)
        have h2 : (0:Nat) < 2 ^ (8 - L) := pow_pos (by omega) _
        omega
      have hheadval : Nat.lor b ((255 : Nat) - (256 - 2 ^ (8 - L))) = b + 2 ^ (8 - L) - 1 := by
        rw [hcompl]
        exact byte_lor_mid b hb L (by omega) halign
      constructor
      · rw [ipToNat, ipToNat, hheadval]
        rw [prefixMaskBytes_zero]
        conv_lhs => rw [hrest0]
        simp only [List.length_replicate]
        rw [zip_replicate_lor, ipToNat_replicate_255, List.length_replicate]
        have hT0 : ipToNat rest = 0 := by rw [hrest0, ipToNat_replicate_zero]
        rw [hT0]
        have he : 8 * (rest.length + 1) - L = (8 - L) + 8 * rest.length := by omega
        rw [he]
        set s := 2 ^ (8 - L) with hs
        set A := 2 ^ (8 * rest.length) with hA
        have hA' : (256 : Nat) ^ rest.length = A := pow256_eq rest.length
        have hpow : 2 ^ ((8 - L) + 8 * rest.length) = s * A := pow_add 2 _ _
        have hspos : 0 < s := pow_pos (by omega) _
        have hApos : 0 < A := pow_pos (by omega) _
        rw [hA', hpow]
        have e1 : (b + s - 1) * A = (b + s) * A - A := by rw [Nat.sub_one_mul]
        have e2 : (b + s) * A = b * A + s * A := Nat.add_mul b s A
        have e3 : A ≤ s * A := Nat.le_mul_of_pos_left A hspos
        omega
      · intro x hx
        rw [hheadval] at hx
        rcases List.mem_cons.mp hx with h | h
        · have := byte_aligned_bound b hb L (by omega) halign
          omega
        · rw [prefixMaskBytes_zero] at h
          conv at h => rw [hrest0]
          simp only [List.length_replicate] at h
          rw [zip_replicate_lor] at h
          have := List.eq_of_mem_replicate h
          omega

theorem sub_mod_range (N X M : Nat) (hM : 0 < M) (hN : N % M = 0) :
    X - X % M = N ↔ N ≤ X ∧ X < N + M := by
  constructor
  · intro he
    have h1 : X % M < M := Nat.mod_lt _ hM
    have h2 : X % M ≤ X := Nat.mod_le _ _
    omega
  · rintro ⟨h1, h2⟩
    have h3 : X % M = X - N := by
      have h4 : X = N + (X - N) := by omega
      conv_lhs => rw [h4]
      rw [Nat.add_mod, hN]
      simp [Nat.mod_eq_of_lt (show X - N < M by omega)]
    have h5 : X % M ≤ X := Nat.mod_le _ _
    omega

theorem aligned_intersect (u v x su sv : Nat) (hsu : 0 < su) (hsv : 0 < sv)
    (hdvd : su ∣ sv ∨ sv ∣ su)
    (hu : u % su = 0) (hv : v % sv = 0)
    (hx1 : u ≤ x) (hx2 : x < u + su) (hx3 : v ≤ x) (hx4 : x < v + sv) :
    (v ≤ u ∧ u < v + sv) ∨ (u ≤ v ∧ v < u + su) := by
  have hu' : x - x % su = u := (sub_mod_range u x su hsu hu).mpr ⟨hx1, hx2⟩
  have hv' : x - x % sv = v := (sub_mod_range v x sv hsv hv).mpr ⟨hx3, hx4⟩
  have hmu : x % su ≤ x := Nat.mod_le _ _
  have hmv : x % sv ≤ x := Nat.mod_le _ _
  rcases hdvd with hd | hd
  · left
    have he : x % sv % su = x % su := Nat.mod_mod_of_dvd x hd
    have hle : x % su ≤ x % sv := he ▸ Nat.mod_le _ _
    omega
  · right
    have he : x % su % sv = x % sv := Nat.mod_mod_of_dvd x hd
    have hle : x % sv ≤ x % su := he ▸ Nat.mod_le _ _
    omega

/-! ## Characterizing Go's `Contains` on well-formed blocks -/

theorem to4_of_len4 (l : List Nat) (h : l.length = 4) : to4 l = some l := by
  unfold to4
  rw [if_pos h]

theorem to4_length (x t : List Nat) (h : to4 x = some t) : t.length = 4 := by
  unfold to4 at h
  split at h
  · cases h; omega
  · split at h
    · cases h
      rename_i hc
      simp [hc.1]
    · cases h

theorem to4_valid (x t : List Nat) (h : to4 x = some t) (hx : ValidBytes x) : ValidBytes t := by
  unfold to4 at h
  split at h
  · cases h; exact hx
  · split at h
    · cases h
      intro z hz
      exact hx z (List.mem_of_mem_drop hz)
    · cases h

theorem to4_none_of_len (x : List Nat) (h4 : x.length ≠ 4) (h16 : x.length ≠ 16) :
    to4 x = none := by
  unfold to4
  rw [if_neg h4, if_neg (fun hc => h16 hc.1)]

theorem nnm_4 (c : IPNet) (h4 : c.ip.length = 4) (hm : c.mask.length = 4) :
    networkNumberAndMask c = some (c.ip, c.mask) := by
  unfold networkNumberAndMask
  rw [to4_of_len4 c.ip h4]
  simp [hm]

theorem nnm_16 (c : IPNet) (h16 : c.ip.length = 16) (hn : to4 c.ip = none)
    (hm : c.mask.length = 16) :
    networkNumberAndMask c = some (c.ip, c.mask) := by
  unfold networkNumberAndMask
  rw [hn]
  simp [h16, hm]

theorem contains_eq (c : IPNet) (nn m : List Nat)
    (hc : networkNumberAndMask c = some (nn, m)) (x : List Nat) :
    contains c x =
      ((match to4 x with | some t => t | none => x).length == nn.length &&
        (List.zipWith Nat.land nn m ==
          List.zipWith Nat.land (match to4 x with | some t => t | none => x) m)) := by
  unfold contains
  rw [hc]

theorem contains_badlen (c : IPNet) (h4 : c.ip.length ≠ 4) (h16 : c.ip.length ≠ 16)
    (x : List Nat) : contains c x = false := by
  unfold contains networkNumberAndMask
  rw [to4_none_of_len c.ip h4 h16]
  simp [h16]

theorem zip_mask_eq_iff (base y : List Nat) (L n : Nat)
    (hbase : ValidBytes base) (hy : ValidBytes y)
    (hbl : base.length = n) (hyl : y.length = n) (hL : L ≤ 8 * n)
    (halign : List.zipWith Nat.land base (prefixMaskBytes L n) = base) :
    (List.zipWith Nat.land base (prefixMaskBytes L n) =
      List.zipWith Nat.land y (prefixMaskBytes L n)) ↔
      (ipToNat base ≤ ipToNat y ∧ ipToNat y < ipToNat base + 2 ^ (8 * n - L)) := by
  have hMpos : (0:Nat) < 2 ^ (8 * n - L) := pow_pos (by omega) _
  have hBal : ipToNat base % 2 ^ (8 * n - L) = 0 := by
    have := aligned_of_masked base L hbase (by omega) (by rw [hbl]; exact halign)
    rwa [hbl] at this
  have hYmask : ipToNat (List.zipWith Nat.land y (prefixMaskBytes L n)) =
      ipToNat y - ipToNat y % 2 ^ (8 * n - L) := by
    have := zip_land_mask_toNat y L hy (by omega)
    rwa [hyl] at this
  constructor
  · intro he
    have hv := congrArg ipToNat he
    rw [halign, hYmask] at hv
    exact (sub_mod_range (ipToNat base) (ipToNat y) _ hMpos hBal).mp hv.symm
  · intro hr
    have hv : ipToNat y - ipToNat y % 2 ^ (8 * n - L) = ipToNat base :=
      (sub_mod_range (ipToNat base) (ipToNat y) _ hMpos hBal).mpr hr
    rw [halign]
    have hml : (prefixMaskBytes L n).length = n := prefixMaskBytes_length L n
    apply Eq.symm
    apply ipToNat_inj
    · rw [List.length_zipWith, hml, hyl, min_self, hbl]
    · exact zip_land_valid y _ hy
    · exact hbase
    · rw [hYmask, hv]

theorem getLast_spec (c : IPNet) (Lc n : Nat) (hmask : c.mask = prefixMaskBytes Lc n)
    (hlen : c.ip.length = n) (hL : Lc ≤ 8 * n)
    (halign : List.zipWith Nat.land c.ip c.mask = c.ip) (hval : ValidBytes c.ip) :
    ipToNat (getLastIPInCIDR c) = ipToNat c.ip + 2 ^ (8 * n - Lc) - 1 ∧
    ValidBytes (getLastIPInCIDR c) ∧ (getLastIPInCIDR c).length = n := by
  unfold getLastIPInCIDR
  rw [hmask, ← hlen]
  have hL' : Lc ≤ 8 * c.ip.length := by omega
  have halign' : List.zipWith Nat.land c.ip (prefixMaskBytes Lc c.ip.length) = c.ip := by
    rw [hlen, ← hmask]
    exact halign
  obtain ⟨hv, hvb⟩ := zip_lor_last_toNat c.ip Lc hval hL' halign'
  refine ⟨?_, hvb, ?_⟩
  · rw [hv, hlen]
  · rw [List.length_zipWith, prefixMaskBytes_length, min_self, hlen]

theorem cidrsOverlap_pair (a b : IPNet) :
    cidrsOverlap a [b] =
      (contains a b.ip || contains b a.ip ||
       contains a (getLastIPInCIDR b) || contains b (getLastIPInCIDR a)) := by
  simp [cidrsOverlap]

theorem contains_4_char (c : IPNet) (Lc : Nat)
    (hL : Lc ≤ 8 * 4) (hmask : c.mask = prefixMaskBytes Lc 4)
    (halign : List.zipWith Nat.land c.ip c.mask = c.ip)
    (hval : ValidBytes c.ip) (h4 : c.ip.length = 4)
    (x : List Nat) (hx : ValidBytes x) :
    (contains c x = true ↔
      ∃ t, to4 x = some t ∧ ipToNat c.ip ≤ ipToNat t ∧
        ipToNat t < ipToNat c.ip + 2 ^ (8 * 4 - Lc)) := by
  have hmlen : c.mask.length = 4 := by rw [hmask, prefixMaskBytes_length]
  rw [contains_eq c c.ip c.mask (nnm_4 c h4 hmlen) x]
  have halign' : List.zipWith Nat.land c.ip (prefixMaskBytes Lc 4) = c.ip := by
    rw [← hmask]; exact halign
  cases ht : to4 x with
  | some t =>
    dsimp only
    have ht4 : t.length = 4 := to4_length x t ht
    have htv : ValidBytes t := to4_valid x t ht hx
    have hzip := zip_mask_eq_iff c.ip t Lc 4 hval htv h4 ht4 hL halign'
    constructor
    · intro hcon
      rw [Bool.and_eq_true, beq_iff_eq, beq_iff_eq] at hcon
      obtain ⟨_, hz⟩ := hcon
      rw [hmask] at hz
      exact ⟨t, rfl, hzip.mp hz⟩
    · rintro ⟨t2, ht2, hr⟩
      injection ht2 with h12
      subst h12
      rw [Bool.and_eq_true, beq_iff_eq, beq_iff_eq]
      refine ⟨by omega, ?_⟩
      rw [hmask]
      exact hzip.mpr hr
  | none =>
    dsimp only
    have hxl : x.length ≠ 4 := by
      intro hc
      rw [to4_of_len4 x hc] at ht
      cases ht
    constructor
    · intro hcon
      rw [Bool.and_eq_true, beq_iff_eq, beq_iff_eq] at hcon
      exact absurd (hcon.1.trans h4) hxl
    · rintro ⟨t, ht2, _⟩
      cases ht2

theorem contains_16_char (c : IPNet) (Lc : Nat)
    (hL : Lc ≤ 8 * 16) (hmask : c.mask = prefixMaskBytes Lc 16)
    (halign : List.zipWith Nat.land c.ip c.mask = c.ip)
    (hval : ValidBytes c.ip) (h16 : c.ip.length = 16) (hnm : to4 c.ip = none)
    (x : List Nat) (hx : ValidBytes x) :
    (contains c x = true ↔
      x.length = 16 ∧ to4 x = none ∧ ipToNat c.ip ≤ ipToNat x ∧
        ipToNat x < ipToNat c.ip + 2 ^ (8 * 16 - Lc)) := by
  have hmlen : c.mask.length = 16 := by rw [hmask, prefixMaskBytes_length]
  rw [contains_eq c c.ip c.mask (nnm_16 c h16 hnm hmlen) x]
  have halign' : List.zipWith Nat.land c.ip (prefixMaskBytes Lc 16) = c.ip := by
    rw [← hmask]; exact halign
  cases ht : to4 x with
  | some t =>
    dsimp only
    have ht4 : t.length = 4 := to4_length x t ht
    constructor
    · intro hcon
      rw [Bool.and_eq_true, beq_iff_eq, beq_iff_eq] at hcon
      obtain ⟨hlt, _⟩ := hcon
      rw [h16] at hlt
      omega
    · rintro ⟨_, hxn, _⟩
      cases hxn
  | none =>
    dsimp only
    constructor
    · intro hcon
      rw [Bool.and_eq_true, beq_iff_eq, beq_iff_eq] at hcon
      obtain ⟨hlx, hz⟩ := hcon
      have hxl : x.length = 16 := hlx.trans h16
      have hzip := zip_mask_eq_iff c.ip x Lc 16 hval hx h16 hxl hL halign'
      rw [hmask] at hz
      exact ⟨hxl, rfl, hzip.mp hz⟩
    · rintro ⟨hxl, _, hr⟩
      rw [Bool.and_eq_true, beq_iff_eq, beq_iff_eq]
      refine ⟨by omega, ?_⟩
      rw [hmask]
      exact (zip_mask_eq_iff c.ip x Lc 16 hval hx h16 hxl hL halign').mpr hr

/-- C5 counterexample: the endpoint test is not exact on mixed
IPv4/IPv6 pairs.  For the aligned blocks `::/80` and
`255.255.255.255/32`, `cidrsOverlap` reports an overlap — the last
address of `::/80` is the IPv4-mapped `::ffff:255.255.255.255`, which
`Contains` converts to 4 bytes — yet no address is contained in both
blocks: the 16-byte block contains only addresses that `To4` cannot
convert, the 4-byte block only ones it can. -/
theorem c5_counterexample :
    ¬ (cidrsOverlap blk6Slash80 [blk4AllOnes] = true ↔
        SharesAddress blk6Slash80 blk4AllOnes) := by
  intro hiff
  have htest : cidrsOverlap blk6Slash80 [blk4AllOnes] = true := by rfl
  obtain ⟨x, _, h6, h4⟩ := hiff.mp htest
  have hn6 : networkNumberAndMask blk6Slash80 =
      some (List.replicate 16 0, prefixMaskBytes 80 16) := by rfl
  have hn4 : networkNumberAndMask blk4AllOnes =
      some ([255, 255, 255, 255], [255, 255, 255, 255]) := by rfl
  rw [contains_eq blk6Slash80 _ _ hn6 x] at h6
  rw [contains_eq blk4AllOnes _ _ hn4 x] at h4
  rw [Bool.and_eq_true, beq_iff_eq] at h6 h4
  have l6 := h6.1
  have l4 := h4.1
  rw [List.length_replicate] at l6
  simp only [List.length_cons, List.length_nil] at l4
  omega

/-- C5 (amended): for two prefix-aligned power-of-two blocks of the same
byte length — both IPv4, or both IPv6 with non-IPv4-mapped base
addresses — the endpoint test of `cidrsOverlap` returns true exactly
when some address is contained in both blocks.  (Across mixed or
IPv4-mapped representations the `To4` normalization inside `Contains`
breaks the equivalence.) -/
theorem c5_overlap_exact (a b : IPNet) (La Lb : Nat)
    (ha : WfBlock a La) (hb : WfBlock b Lb)
    (hlen : a.ip.length = b.ip.length)
    (hm16 : a.ip.length = 16 → to4 a.ip = none ∧ to4 b.ip = none) :
    (cidrsOverlap a [b] = true ↔ SharesAddress a b) := by
  obtain ⟨hLa, hmaska, haligna, hvala⟩ := ha
  obtain ⟨hLb, hmaskb, halignb, hvalb⟩ := hb
  rw [cidrsOverlap_pair]
  by_cases h4 : a.ip.length = 4
  · have hb4 : b.ip.length = 4 := by omega
    rw [h4] at hmaska hLa
    rw [hb4] at hmaskb hLb
    have hchA := fun (x : List Nat) (hx : ValidBytes x) =>
      contains_4_char a La hLa hmaska haligna hvala h4 x hx
    have hchB := fun (x : List Nat) (hx : ValidBytes x) =>
      contains_4_char b Lb hLb hmaskb halignb hvalb hb4 x hx
    have hMa : (0:Nat) < 2 ^ (8 * 4 - La) := pow_pos (by omega) _
    have hMb : (0:Nat) < 2 ^ (8 * 4 - Lb) := pow_pos (by omega) _
    obtain ⟨hlastBv, hlastBval, hlastBlen⟩ :=
      getLast_spec b Lb 4 hmaskb hb4 hLb halignb hvalb
    obtain ⟨hlastAv, hlastAval, hlastAlen⟩ :=
      getLast_spec a La 4 hmaska h4 hLa haligna hvala
    constructor
    · intro h
      rw [Bool.or_eq_true, Bool.or_eq_true, Bool.or_eq_true] at h
      rcases h with ((h1 | h2) | h3) | h4'
      · refine ⟨b.ip, ⟨Or.inl hb4, hvalb⟩, h1, ?_⟩
        exact (hchB b.ip hvalb).mpr ⟨b.ip, to4_of_len4 _ hb4, le_refl _, by omega⟩
      · refine ⟨a.ip, ⟨Or.inl h4, hvala⟩, ?_, h2⟩
        exact (hchA a.ip hvala).mpr ⟨a.ip, to4_of_len4 _ h4, le_refl _, by omega⟩
      · refine ⟨getLastIPInCIDR b, ⟨Or.inl hlastBlen, hlastBval⟩, h3, ?_⟩
        exact (hchB _ hlastBval).mpr ⟨_, to4_of_len4 _ hlastBlen, by omega, by omega⟩
      · refine ⟨getLastIPInCIDR a, ⟨Or.inl hlastAlen, hlastAval⟩, ?_, h4'⟩
        exact (hchA _ hlastAval).mpr ⟨_, to4_of_len4 _ hlastAlen, by omega, by omega⟩
    · rintro ⟨x, ⟨hxl, hxv⟩, hax, hbx⟩
      obtain ⟨t, ht, ra1, ra2⟩ := (hchA x hxv).mp hax
      obtain ⟨t2, ht2, rb1, rb2⟩ := (hchB x hxv).mp hbx
      rw [ht] at ht2
      injection ht2 with h12
      subst h12
      have halA : ipToNat a.ip % 2 ^ (8 * 4 - La) = 0 := by
        have h := aligned_of_masked a.ip La hvala (by rw [h4]; omega)
          (by rw [h4, ← hmaska]; exact haligna)
        rwa [h4] at h
      have halB : ipToNat b.ip % 2 ^ (8 * 4 - Lb) = 0 := by
        have h := aligned_of_masked b.ip Lb hvalb (by rw [hb4]; omega)
          (by rw [hb4, ← hmaskb]; exact halignb)
        rwa [hb4] at h
      have hdvd : (2:Nat) ^ (8 * 4 - La) ∣ 2 ^ (8 * 4 - Lb) ∨
          (2:Nat) ^ (8 * 4 - Lb) ∣ 2 ^ (8 * 4 - La) := by
        rcases le_total (8 * 4 - La) (8 * 4 - Lb) with hc | hc
        · exact Or.inl (pow_dvd_pow 2 hc)
        · exact Or.inr (pow_dvd_pow 2 hc)
      rcases aligned_intersect (ipToNat a.ip) (ipToNat b.ip) (ipToNat t) _ _
          hMa hMb hdvd halA halB ra1 ra2 rb1 rb2 with ⟨hc1, hc2⟩ | ⟨hc1, hc2⟩
      · have hcb : contains b a.ip = true :=
          (hchB a.ip hvala).mpr ⟨a.ip, to4_of_len4 _ h4, hc1, hc2⟩
        rw [hcb]
        simp
      · have hca : contains a b.ip = true :=
          (hchA b.ip hvalb).mpr ⟨b.ip, to4_of_len4 _ hb4, hc1, hc2⟩
        rw [hca]
        simp
  · by_cases h16 : a.ip.length = 16
    · have hb16 : b.ip.length = 16 := by omega
      obtain ⟨hnma, hnmb⟩ := hm16 h16
      rw [h16] at hmaska hLa
      rw [hb16] at hmaskb hLb
      have hchA := fun (x : List Nat) (hx : ValidBytes x) =>
        contains_16_char a La hLa hmaska haligna hvala h16 hnma x hx
      have hchB := fun (x : List Nat) (hx : ValidBytes x) =>
        contains_16_char b Lb hLb hmaskb halignb hvalb hb16 hnmb x hx
      have hMa : (0:Nat) < 2 ^ (8 * 16 - La) := pow_pos (by omega) _
      have hMb : (0:Nat) < 2 ^ (8 * 16 - Lb) := pow_pos (by omega) _
      obtain ⟨hlastBv, hlastBval, hlastBlen⟩ :=
        getLast_spec b Lb 16 hmaskb hb16 hLb halignb hvalb
      obtain ⟨hlastAv, hlastAval, hlastAlen⟩ :=
        getLast_spec a La 16 hmaska h16 hLa haligna hvala
      constructor
      · intro h
        rw [Bool.or_eq_true, Bool.or_eq_true, Bool.or_eq_true] at h
        rcases h with ((h1 | h2) | h3) | h4'
        · refine ⟨b.ip, ⟨Or.inr hb16, hvalb⟩, h1, ?_⟩
          exact (hchB b.ip hvalb).mpr ⟨hb16, hnmb, le_refl _, by omega⟩
        · refine ⟨a.ip, ⟨Or.inr h16, hvala⟩, ?_, h2⟩
          exact (hchA a.ip hvala).mpr ⟨h16, hnma, le_refl _, by omega⟩
        · obtain ⟨hl16, hton, ra1, ra2⟩ := (hchA _ hlastBval).mp h3
          refine ⟨getLastIPInCIDR b, ⟨Or.inr hlastBlen, hlastBval⟩, h3, ?_⟩
          exact (hchB _ hlastBval).mpr ⟨hlastBlen, hton, by omega, by omega⟩
        · obtain ⟨hl16, hton, rb1, rb2⟩ := (hchB _ hlastAval).mp h4'
          refine ⟨getLastIPInCIDR a, ⟨Or.inr hlastAlen, hlastAval⟩, ?_, h4'⟩
          exact (hchA _ hlastAval).mpr ⟨hlastAlen, hton, by omega, by omega⟩
      · rintro ⟨x, ⟨hxl, hxv⟩, hax, hbx⟩
        obtain ⟨hxl16, hxn, ra1, ra2⟩ := (hchA x hxv).mp hax
        obtain ⟨_, _, rb1, rb2⟩ := (hchB x hxv).mp hbx
        have halA : ipToNat a.ip % 2 ^ (8 * 16 - La) = 0 := by
          have h := aligned_of_masked a.ip La hvala (by rw [h16]; omega)
            (by rw [h16, ← hmaska]; exact haligna)
          rwa [h16] at h
        have halB : ipToNat b.ip % 2 ^ (8 * 16 - Lb) = 0 := by
          have h := aligned_of_masked b.ip Lb hvalb (by rw [hb16]; omega)
            (by rw [hb16, ← hmaskb]; exact halignb)
          rwa [hb16] at h
        have hdvd : (2:Nat) ^ (8 * 16 - La) ∣ 2 ^ (8 * 16 - Lb) ∨
            (2:Nat) ^ (8 * 16 - Lb) ∣ 2 ^ (8 * 16 - La) := by
          rcases le_total (8 * 16 - La) (8 * 16 - Lb) with hc | hc
          · exact Or.inl (pow_dvd_pow 2 hc)
          · exact Or.inr (pow_dvd_pow 2 hc)
        rcases aligned_intersect (ipToNat a.ip) (ipToNat b.ip) (ipToNat x) _ _
            hMa hMb hdvd halA halB ra1 ra2 rb1 rb2 with ⟨hc1, hc2⟩ | ⟨hc1, hc2⟩
        · have hcb : contains b a.ip = true :=
            (hchB a.ip hvala).mpr ⟨h16, hnma, hc1, hc2⟩
          rw [hcb]
          simp
        · have hca : contains a b.ip = true :=
            (hchA b.ip hvalb).mpr ⟨hb16, hnmb, hc1, hc2⟩
          rw [hca]
          simp
    · have hb4 : b.ip.length ≠ 4 := by omega
      have hb16 : b.ip.length ≠ 16 := by omega
      simp only [contains_badlen a h4 h16, contains_badlen b hb4 hb16, Bool.or_self,
        Bool.false_or]
      constructor
      · intro h
        exact absurd h (by simp)
      · rintro ⟨x, _, hax, _⟩
        rw [contains_badlen a h4 h16 x] at hax
        exact absurd hax (by simp)

/-- A witness instantiating C5's hypotheses: the blocks `10.0.0.0/27`
and `10.0.0.0/16` overlap exactly when they share an address. -/
theorem c5_witness :
    cidrsOverlap blk4Sub [blk4Pool] = true ↔ SharesAddress blk4Sub blk4Pool :=
  c5_overlap_exact blk4Sub blk4Pool 27 16
    (by
      refine ⟨by decide, by decide, by decide, ?_⟩
      show ∀ z ∈ [10, 0, 0, 0], z < 256
      decide)
    (by
      refine ⟨by decide, by decide, by decide, ?_⟩
      show ∀ z ∈ [10, 0, 0, 0], z < 256
      decide)
    (by decide)
    (fun h => absurd h (by decide))

end Tfipam
